import Mathlib

/-!
Verification of the incremental relationship-graph engine of the Telephasma
frontend store (`src/frontend/src/store/useStore.ts`) together with the scan
queue sequencing logic in `src/frontend/src/components/Scanner.tsx`.

The store is shallowly embedded: JavaScript `Map`s become insertion-ordered
association lists (`List (String × α)`), optional / possibly-absent fields
become `Option` with explicit JavaScript truthiness, and the reactive
`processScanUpdate` action becomes a pure state-transition function.
WebSocket I/O, rendering, and `localStorage` are outside the model.
-/

set_option maxHeartbeats 1000000

namespace Telephasma

/-- JavaScript truthiness of an optional string field: `undefined` and the
empty string are falsy. -/
def strTruthy : Option String → Bool
  | none => false
  | some s => if s = "" then false else true

/-- JavaScript truthiness of an optional numeric field: `undefined` and `0`
are falsy. -/
def natTruthy : Option Nat → Bool
  | none => false
  | some n => if n = 0 then false else true

/-- JavaScript template interpolation of a possibly missing id:
`` `u_${data.id}` `` with `data.id === undefined` yields `"u_undefined"`. -/
def optIdString : Option Nat → String
  | some n => toString n
  | none => "undefined"

/-- JavaScript `String.prototype.startsWith`. -/
def strStartsWith (s p : String) : Bool :=
  p.data.isPrefixOf s.data

/-- Graph node as stored in `graphData.nodes` (interface `GraphNode`, plus the
`discoveredFrom` metadata the store attaches via `(node as any)`).  A missing
`isTarget` is falsy in JavaScript, so it is modelled as `false`. -/
structure GraphNode where
  id : String
  label : String
  group : String
  val : Rat
  title : Option String := none
  color : Option String := none
  isTarget : Bool := false
  discoveredFrom : Option String := none
deriving DecidableEq, Repr

/-- Graph edge as stored in `graphData.links` (interface `GraphLink`).  In the
store itself `source`/`target` are always the string ids (the `typeof`
re-normalisation in the source handles objects injected by the rendering
library, which is outside this model). -/
structure GraphLink where
  source : String
  target : String
  value : Option Nat := none
  label : Option String := none
deriving DecidableEq, Repr

/-- The `graphData` field of the store. -/
structure GraphData where
  nodes : List GraphNode
  links : List GraphLink
deriving DecidableEq, Repr

/-- Entry of `giftsSentTo` / `giftsReceivedFrom` in a `ParsedUser`. -/
structure GiftTuple where
  userId : String
  label : String
  count : Nat
deriving DecidableEq, Repr

/-- Derived per-entity record (interface `ParsedUser`).  `sourceType` is one
of the strings `"target"`, `"gifter"`, `"discovered"`. -/
structure ParsedUser where
  id : String
  label : String
  bio : Option String := none
  channels : List String := []
  sourceType : String
  depth : Nat := 0
  giftsSentTo : List GiftTuple := []
  giftsReceivedFrom : List GiftTuple := []
  totalGiftsSent : Nat := 0
  totalGiftsReceived : Nat := 0
  discoveredFrom : Option String := none
deriving DecidableEq, Repr

/-- Payload of a `user_found` / `user_detail` event (`update.data`). -/
structure UserData where
  id : Option Nat := none
  username : Option String := none
  first_name : Option String := none
  bio : Option String := none
  type : Option String := none
  discovered_from : Option String := none
  depth : Option Nat := none
  channel_links : Option (List String) := none
deriving DecidableEq, Repr

/-- One entry of the `gifts` array of a `user_gifts` event. -/
structure GiftEntry where
  sender_id : Option Nat := none
deriving DecidableEq, Repr

/-- One entry of the `resolved_users` map of a `user_gifts` event. -/
structure ResolvedUser where
  username : Option String := none
  first_name : Option String := none
deriving DecidableEq, Repr

/-- The update messages consumed by `processScanUpdate`. -/
inductive Update where
  | log (message : String)
  | user_found (data : UserData)
  | user_detail (data : UserData)
  | user_gifts (user_id : Option Nat) (gifts : List GiftEntry)
      (resolved_users : List (Nat × ResolvedUser))
deriving DecidableEq, Repr

/-- The slice of the zustand `AppState` relevant to the graph engine and the
scan queue controller (UI-only fields such as `activeTab`, `language` or the
layout position cache are omitted). -/
structure AppState where
  isScanning : Bool := false
  scanQueue : List String := []
  customScanTargets : List String := []
  scanTargetChatId : String := ""
  scannedUsers : List UserData := []
  graphData : GraphData := { nodes := [], links := [] }
  parsedUsers : List ParsedUser := []
  logs : List String := []
deriving DecidableEq, Repr

/-- Insertion-ordered association lists model JavaScript `Map`s. -/
abbrev NodeMap := List (String × GraphNode)

abbrev LinkMap := List (String × GraphLink)

abbrev Pool := List (String × ParsedUser)

/-- JavaScript `Map.prototype.get`. -/
def mget {α : Type} (m : List (String × α)) (k : String) : Option α :=
  match m with
  | [] => none
  | (k0, v) :: rest => if k0 = k then some v else mget rest k

/-- JavaScript `Map.prototype.set`: overwrite in place keeping the original
position, or append a fresh entry. -/
def mset {α : Type} (m : List (String × α)) (k : String) (v : α) :
    List (String × α) :=
  match m with
  | [] => [(k, v)]
  | (k0, v0) :: rest => if k0 = k then (k0, v) :: rest else (k0, v0) :: mset rest k v

/-- In-place mutation of the entry at a key (the JavaScript code mutates the
object obtained from `get`). -/
def mupd {α : Type} (m : List (String × α)) (k : String) (f : α → α) :
    List (String × α) :=
  match m with
  | [] => []
  | (k0, v) :: rest => if k0 = k then (k0, f v) :: rest else (k0, v) :: mupd rest k f

/-- `new Map(xs.map(x => [key(x), {...x}]))`. -/
def buildMap {α : Type} (f : α → String) (xs : List α) : List (String × α) :=
  xs.foldl (fun m x => mset m (f x) x) []

/-- Key under which a link is stored: `` `${s}-${t}` ``. -/
def linkKey (l : GraphLink) : String := l.source ++ "-" ++ l.target

def buildNodeMap (nodes : List GraphNode) : NodeMap :=
  buildMap (fun n => n.id) nodes

def buildLinkMap (links : List GraphLink) : LinkMap :=
  buildMap linkKey links

/-- `data.username ? `@${data.username}` : (data.first_name || `U_${data.id}`)`. -/
def accountLabel (d : UserData) : String :=
  if strTruthy d.username then "@" ++ d.username.getD ""
  else if strTruthy d.first_name then d.first_name.getD ""
  else "U_" ++ optIdString d.id

/-- `const discoveredFrom = data.discovered_from || null`. -/
def normDiscoveredFrom (d : UserData) : Option String :=
  if strTruthy d.discovered_from then d.discovered_from else none

/-- The mutation performed on an existing node by a `user_found` /
`user_detail` event (lines 157–168 of `useStore.ts`). -/
def updateAccountNode (n : GraphNode) (d : UserData) : GraphNode :=
  { n with
    label := if strTruthy d.username then accountLabel d else n.label,
    group := if strTruthy d.type then d.type.getD "" else n.group,
    title := if strTruthy d.bio then d.bio else n.title,
    isTarget := if !n.isTarget && !strTruthy d.discovered_from then true else n.isTarget,
    discoveredFrom :=
      if strTruthy (normDiscoveredFrom d) && !strTruthy n.discoveredFrom
      then normDiscoveredFrom d else n.discoveredFrom }

/-- The node created for a previously unseen account (lines 170–175). -/
def createAccountNode (d : UserData) : GraphNode :=
  { id := "u_" ++ optIdString d.id,
    label := accountLabel d,
    group := if strTruthy d.type then d.type.getD "" else "member",
    val := if d.depth = some 0 then 8 else (9 : Rat) / 2,
    title := some (if strTruthy d.bio then d.bio.getD "" else ""),
    color := none,
    isTarget := !strTruthy d.discovered_from,
    discoveredFrom := normDiscoveredFrom d }

/-- Account part of a `user_found` / `user_detail` event. -/
def applyAccount (nm : NodeMap) (d : UserData) : NodeMap :=
  let uid := "u_" ++ optIdString d.id
  match mget nm uid with
  | some n => mset nm uid (updateAccountNode n d)
  | none => mset nm uid (createAccountNode d)

/-- Channel node created for a handle (line 182). -/
def channelNode (clink : String) : GraphNode :=
  { id := "c_" ++ clink, label := "@" ++ clink, group := "channel", val := 6 }

/-- Body of the `channel_links.forEach` loop (lines 179–188). -/
def applyChannelLink (uid : String) (p : NodeMap × LinkMap) (clink : String) :
    NodeMap × LinkMap :=
  let cid := "c_" ++ clink
  let nm := if (mget p.1 cid).isSome then p.1 else mset p.1 cid (channelNode clink)
  let lkey := uid ++ "-" ++ cid
  let lm := if (mget p.2 lkey).isSome then p.2
            else mset p.2 lkey { source := uid, target := cid, value := some 1 }
  (nm, lm)

def applyChannelLinks (uid : String) (nm : NodeMap) (lm : LinkMap)
    (handles : List String) : NodeMap × LinkMap :=
  handles.foldl (applyChannelLink uid) (nm, lm)

/-- Lookup in the `resolved_users` map of a gifts event. -/
def lookupResolved (resolved : List (Nat × ResolvedUser)) (sid : Nat) :
    Option ResolvedUser :=
  match resolved with
  | [] => none
  | (k, v) :: rest => if k = sid then some v else lookupResolved rest sid

/-- Label chosen when creating a sender node inside a gifts event
(lines 202–211). -/
def giftSenderLabel (resolved : List (Nat × ResolvedUser)) (sid : Nat) : String :=
  match lookupResolved resolved sid with
  | some ru =>
      if strTruthy ru.username then "@" ++ ru.username.getD ""
      else if strTruthy ru.first_name then ru.first_name.getD ""
      else "U_" ++ toString sid
  | none => "U_" ++ toString sid

/-- Upgrade of an already existing sender node: only when its label is still a
`U_` placeholder and a resolved identity is available (lines 220–230). -/
def upgradeSenderNode (n : GraphNode) (resolved : List (Nat × ResolvedUser))
    (sid : Nat) : GraphNode :=
  match lookupResolved resolved sid with
  | some ru =>
      if strStartsWith n.label "U_" then
        if strTruthy ru.username then { n with label := "@" ++ ru.username.getD "" }
        else if strTruthy ru.first_name then { n with label := ru.first_name.getD "" }
        else n
      else n
  | none => n

/-- Body of the `gifts.forEach` loop (lines 196–241).  Entries whose
`sender_id` is falsy (absent or `0`) are skipped. -/
def applyGiftEntry (targetId : String) (resolved : List (Nat × ResolvedUser))
    (p : NodeMap × LinkMap) (g : GiftEntry) : NodeMap × LinkMap :=
  if !natTruthy g.sender_id then p
  else
    let sid := g.sender_id.getD 0
    let srcId := "u_" ++ toString sid
    let nm :=
      match mget p.1 srcId with
      | none => mset p.1 srcId
          { id := srcId, label := giftSenderLabel resolved sid,
            group := "potential_gifter", val := 3 }
      | some n => mset p.1 srcId (upgradeSenderNode n resolved sid)
    let lkey := srcId ++ "-" ++ targetId
    let lm :=
      match mget p.2 lkey with
      | some l =>
          let v := l.value.getD 0 + 1
          mset p.2 lkey { l with value := some v, label := some (toString v ++ " GIFTS") }
      | none => mset p.2 lkey
          { source := srcId, target := targetId, value := some 1, label := some "1 GIFT" }
    (nm, lm)

def applyGifts (user_id : Option Nat) (gifts : List GiftEntry)
    (resolved : List (Nat × ResolvedUser)) (nm : NodeMap) (lm : LinkMap) :
    NodeMap × LinkMap :=
  gifts.foldl (applyGiftEntry ("u_" ++ optIdString user_id) resolved) (nm, lm)

/-- Initial `ParsedUser` record for a non-channel node (lines 249–264). -/
def initRecord (n : GraphNode) : ParsedUser :=
  { id := n.id, label := n.label, bio := n.title, channels := [],
    sourceType := if n.isTarget then "target" else "discovered",
    depth := 0, giftsSentTo := [], giftsReceivedFrom := [],
    totalGiftsSent := 0, totalGiftsReceived := 0,
    discoveredFrom := n.discoveredFrom }

/-- `userPool` construction: one record per non-channel node. -/
def buildPool (nodes : List GraphNode) : Pool :=
  nodes.foldl (fun pool n => if n.group = "channel" then pool
                             else mset pool n.id (initRecord n)) []

/-- Body of the `finalLinks.forEach` loop (lines 266–283).  The sequence of
three `mupd`s reproduces the in-place mutations of the aliased `sender` and
`receiver` objects, including the self-gift case where both are the same. -/
def applyLink (nm : NodeMap) (pool : Pool) (l : GraphLink) : Pool :=
  let sender := mget pool l.source
  let receiver := mget pool l.target
  if strStartsWith l.target "c_" && sender.isSome then
    match mget nm l.target with
    | some ch => mupd pool l.source (fun u => { u with channels := u.channels ++ [ch.label] })
    | none => pool
  else
    match sender, receiver with
    | some su, some ru =>
        let count := if natTruthy l.value then l.value.getD 0 else 1
        let pool1 := mupd pool l.source (fun u =>
          { u with giftsSentTo := u.giftsSentTo ++ [⟨l.target, ru.label, count⟩],
                   totalGiftsSent := u.totalGiftsSent + count })
        let pool2 := mupd pool1 l.target (fun u =>
          { u with giftsReceivedFrom := u.giftsReceivedFrom ++ [⟨l.source, su.label, count⟩],
                   totalGiftsReceived := u.totalGiftsReceived + count })
        mupd pool2 l.source (fun u =>
          if u.sourceType = "discovered" then { u with sourceType := "gifter" } else u)
    | _, _ => pool

/-- The single-pass `ParsedUser` generation over the final maps. -/
def runProjection (nm : NodeMap) (lm : LinkMap) : Pool :=
  (lm.map (fun p => p.2)).foldl (applyLink nm) (buildPool (nm.map (fun p => p.2)))

def project (nm : NodeMap) (lm : LinkMap) : List ParsedUser :=
  (runProjection nm lm).map (fun p => p.2)

/-- The projection run on a graph snapshot exactly as `processScanUpdate`
runs it (maps rebuilt from the arrays, then one pass over the links). -/
def projectGraph (g : GraphData) : List ParsedUser :=
  project (buildNodeMap g.nodes) (buildLinkMap g.links)

/-- Final `set({...})` of `processScanUpdate` for non-log updates. -/
def finishUpdate (s : AppState) (nm : NodeMap) (lm : LinkMap) : AppState :=
  { s with
    graphData := { nodes := nm.map (fun p => p.2), links := lm.map (fun p => p.2) },
    parsedUsers := project nm lm,
    logs := s.logs }

/-- The store action `processScanUpdate` (lines 134–290 of `useStore.ts`). -/
def processScanUpdate (s : AppState) (u : Update) : AppState :=
  let nm := buildNodeMap s.graphData.nodes
  let lm := buildLinkMap s.graphData.links
  match u with
  | .log msg => { s with logs := s.logs ++ [msg] }
  | .user_found d => finishUpdate s (applyAccount nm d) lm
  | .user_detail d =>
      let nm := applyAccount nm d
      let p :=
        match d.channel_links with
        | some ls => applyChannelLinks ("u_" ++ optIdString d.id) nm lm ls
        | none => (nm, lm)
      finishUpdate s p.1 p.2
  | .user_gifts user_id gifts resolved =>
      let p := applyGifts user_id gifts resolved nm lm
      finishUpdate s p.1 p.2

/-- The store action `startScan`. -/
def startScan (s : AppState) : AppState :=
  { s with isScanning := true, scannedUsers := [],
           graphData := { nodes := [], links := [] },
           parsedUsers := [], logs := ["SCAN_INITIATED"] }

/-- The store action `stopScan`. -/
def stopScan (s : AppState) : AppState :=
  { s with isScanning := false, logs := s.logs ++ ["SCAN_HALTED"] }

/-- The store action `addLog`. -/
def addLog (s : AppState) (msg : String) : AppState :=
  { s with logs := s.logs ++ [msg] }

/-- The store action `setScanQueue`. -/
def setScanQueue (s : AppState) (q : List String) : AppState :=
  { s with scanQueue := q }

/-- `startScanForId` from `Scanner.tsx` (lines 80–96): guard on an empty id,
store the target, reset the session state via `startScan`, and log.  The
WebSocket wiring is I/O and outside the model. -/
def startScanForId (s : AppState) (chatId : String) : AppState :=
  if chatId = "" then s
  else
    let s2 := startScan { s with scanTargetChatId := chatId }
    addLog s2 (if chatId = "custom"
      then "Connecting to scan " ++ toString s2.customScanTargets.length ++ " selected users..."
      else "Connecting to " ++ chatId ++ "...")

/-- The `ws.onclose` continuation of `startScanForId` (lines 112–135): on
stream completion either pop and start the next queued target (with
`autoProcess` fixed at `true` as in the source) or stop the scan. -/
def onStreamClose (s : AppState) : AppState :=
  if !s.isScanning then addLog s "Scan stopped immediately."
  else
    match s.scanQueue with
    | [] => addLog (stopScan s) "Scan stopped."
    | nextId :: rest =>
        let s1 := setScanQueue s rest
        if nextId = "" then s1 else startScanForId s1 nextId

/-- The initial store state (graph-engine slice). -/
def initialState : AppState :=
  { isScanning := false, scanQueue := [], customScanTargets := [],
    scanTargetChatId := "", scannedUsers := [],
    graphData := { nodes := [], links := [] }, parsedUsers := [], logs := [] }

/-- Iterated application of one update. -/
def applyN (u : Update) : Nat → AppState → AppState
  | 0, s => s
  | n + 1, s => processScanUpdate (applyN u n s) u

/-- Lookup of a projected record by entity id. -/
def findUser (s : AppState) (uid : String) : Option ParsedUser :=
  s.parsedUsers.find? (fun r => r.id == uid)

/-! ## Association-list (JavaScript `Map`) lemmas -/

theorem mget_mset_self {α : Type} (m : List (String × α)) (k : String) (v : α) :
    mget (mset m k v) k = some v := by
  induction m with
  | nil => simp [mget, mset]
  | cons p rest ih =>
    obtain ⟨k0, v0⟩ := p
    by_cases h : k0 = k <;> simp [mget, mset, h, ih]

theorem mget_mset_ne {α : Type} (m : List (String × α)) {k k' : String} (v : α)
    (h : k ≠ k') : mget (mset m k v) k' = mget m k' := by
  induction m with
  | nil => simp [mget, mset, h]
  | cons p rest ih =>
    obtain ⟨k0, v0⟩ := p
    by_cases h0 : k0 = k
    · subst h0
      simp [mget, mset, h]
    · simp only [mset, if_neg h0, mget]
      by_cases h1 : k0 = k' <;> simp [h1, ih]

theorem mset_eq_of_mget {α : Type} {m : List (String × α)} {k : String} {v : α}
    (h : mget m k = some v) : mset m k v = m := by
  induction m with
  | nil => simp [mget] at h
  | cons p rest ih =>
    obtain ⟨k0, v0⟩ := p
    by_cases h0 : k0 = k
    · simp only [mget, if_pos h0] at h
      obtain rfl : v0 = v := Option.some.inj h
      simp [mset, h0]
    · simp only [mget, if_neg h0] at h
      simp [mset, h0, ih h]

theorem mset_mset_self {α : Type} (m : List (String × α)) (k : String) (v w : α) :
    mset (mset m k v) k w = mset m k w := by
  induction m with
  | nil => simp [mset]
  | cons p rest ih =>
    obtain ⟨k0, v0⟩ := p
    by_cases h0 : k0 = k <;> simp [mset, h0, ih]

theorem mset_append_of_mget_none {α : Type} {m : List (String × α)} {k : String}
    (v : α) (h : mget m k = none) : mset m k v = m ++ [(k, v)] := by
  induction m with
  | nil => simp [mset]
  | cons p rest ih =>
    obtain ⟨k0, v0⟩ := p
    by_cases h0 : k0 = k
    · simp [mget, h0] at h
    · simp only [mget, if_neg h0] at h
      simp [mset, h0, ih h]

theorem mget_eq_none_iff {α : Type} (m : List (String × α)) (k : String) :
    mget m k = none ↔ k ∉ m.map (fun p => p.1) := by
  induction m with
  | nil => simp [mget]
  | cons p rest ih =>
    obtain ⟨k0, v0⟩ := p
    by_cases h0 : k0 = k
    · constructor
      · intro h
        simp [mget, h0] at h
      · intro h
        exact absurd (by simp [h0]) h
    · constructor
      · intro h
        simp only [mget, if_neg h0] at h
        intro hmem
        rcases List.mem_cons.mp hmem with h1 | h1
        · exact h0 h1.symm
        · exact (ih.mp h) h1
      · intro h
        simp only [mget, if_neg h0]
        exact ih.mpr (fun h1 => h (List.mem_cons_of_mem _ h1))

theorem mget_isSome_iff {α : Type} (m : List (String × α)) (k : String) :
    (mget m k).isSome = true ↔ k ∈ m.map (fun p => p.1) := by
  rcases h : mget m k with _ | v
  · have h2 := (mget_eq_none_iff m k).mp h
    simp only [Option.isSome_none, Bool.false_eq_true, false_iff]
    exact h2
  · simp only [Option.isSome_some, true_iff]
    by_contra hmem
    rw [← mget_eq_none_iff] at hmem
    rw [hmem] at h
    exact Option.noConfusion h

theorem mem_of_mget {α : Type} {m : List (String × α)} {k : String} {v : α}
    (h : mget m k = some v) : (k, v) ∈ m := by
  induction m with
  | nil => simp [mget] at h
  | cons p rest ih =>
    obtain ⟨k0, v0⟩ := p
    by_cases h0 : k0 = k
    · simp only [mget, if_pos h0] at h
      obtain rfl : v0 = v := Option.some.inj h
      subst h0
      exact List.mem_cons_self _ _
    · simp only [mget, if_neg h0] at h
      exact List.mem_cons_of_mem _ (ih h)

theorem mem_mset_elim {α : Type} {m : List (String × α)} {k : String} {v : α}
    {p : String × α} (h : p ∈ mset m k v) : p = (k, v) ∨ p ∈ m := by
  induction m with
  | nil => simp [mset] at h; exact Or.inl h
  | cons q rest ih =>
    obtain ⟨k0, v0⟩ := q
    by_cases h0 : k0 = k
    · subst h0
      simp only [mset, if_pos rfl] at h
      rcases List.mem_cons.mp h with h1 | h1
      · exact Or.inl h1
      · exact Or.inr (List.mem_cons_of_mem _ h1)
    · simp only [mset, if_neg h0] at h
      rcases List.mem_cons.mp h with h1 | h1
      · exact Or.inr (by simp [h1])
      · rcases ih h1 with h2 | h2
        · exact Or.inl h2
        · exact Or.inr (List.mem_cons_of_mem _ h2)

theorem mem_mupd_elim {α : Type} {m : List (String × α)} {k : String} {g : α → α}
    {p : String × α} (h : p ∈ mupd m k g) :
    p ∈ m ∨ ∃ q ∈ m, p = (q.1, g q.2) := by
  induction m with
  | nil => simp [mupd] at h
  | cons q rest ih =>
    obtain ⟨k0, v0⟩ := q
    by_cases h0 : k0 = k
    · simp only [mupd, if_pos h0] at h
      rcases List.mem_cons.mp h with h1 | h1
      · exact Or.inr ⟨(k0, v0), by simp, h1⟩
      · exact Or.inl (List.mem_cons_of_mem _ h1)
    · simp only [mupd, if_neg h0] at h
      rcases List.mem_cons.mp h with h1 | h1
      · exact Or.inl (by simp [h1])
      · rcases ih h1 with h2 | h2
        · exact Or.inl (List.mem_cons_of_mem _ h2)
        · obtain ⟨q, hq, hq2⟩ := h2
          exact Or.inr ⟨q, List.mem_cons_of_mem _ hq, hq2⟩

theorem mset_keys_of_mget_none {α : Type} {m : List (String × α)} {k : String}
    (v : α) (h : mget m k = none) :
    (mset m k v).map (fun p => p.1) = m.map (fun p => p.1) ++ [k] := by
  rw [mset_append_of_mget_none v h]
  simp

theorem mset_keys_of_mget_some {α : Type} {m : List (String × α)} {k : String}
    {w : α} (v : α) (h : mget m k = some w) :
    (mset m k v).map (fun p => p.1) = m.map (fun p => p.1) := by
  induction m with
  | nil => simp [mget] at h
  | cons p rest ih =>
    obtain ⟨k0, v0⟩ := p
    by_cases h0 : k0 = k
    · simp [mset, h0]
    · simp only [mget, if_neg h0] at h
      simp [mset, h0, ih h]

theorem mget_mupd_self {α : Type} (m : List (String × α)) (k : String) (f : α → α) :
    mget (mupd m k f) k = (mget m k).map f := by
  induction m with
  | nil => simp [mget, mupd]
  | cons p rest ih =>
    obtain ⟨k0, v0⟩ := p
    by_cases h0 : k0 = k <;> simp [mget, mupd, h0, ih]

theorem mget_mupd_ne {α : Type} (m : List (String × α)) {k k' : String} (f : α → α)
    (h : k ≠ k') : mget (mupd m k f) k' = mget m k' := by
  induction m with
  | nil => simp [mupd]
  | cons p rest ih =>
    obtain ⟨k0, v0⟩ := p
    by_cases h0 : k0 = k
    · subst h0
      simp [mget, mupd, h]
    · simp only [mupd, if_neg h0, mget]
      by_cases h1 : k0 = k' <;> simp [h1, ih]

theorem mupd_keys {α : Type} (m : List (String × α)) (k : String) (f : α → α) :
    (mupd m k f).map (fun p => p.1) = m.map (fun p => p.1) := by
  induction m with
  | nil => simp [mupd]
  | cons p rest ih =>
    obtain ⟨k0, v0⟩ := p
    by_cases h0 : k0 = k <;> simp [mupd, h0, ih]

/-! ## Well-formedness of the maps -/

/-- Every entry of the map is stored under its canonical key. -/
def KeyedBy {α : Type} (f : α → String) (m : List (String × α)) : Prop :=
  ∀ p ∈ m, f p.2 = p.1

/-- The keys of the map are pairwise distinct. -/
def NodupKeys {α : Type} (m : List (String × α)) : Prop :=
  (m.map (fun p => p.1)).Nodup

theorem keyedBy_mset {α : Type} {f : α → String} {m : List (String × α)}
    (hm : KeyedBy f m) {k : String} {v : α} (hv : f v = k) :
    KeyedBy f (mset m k v) := by
  intro p hp
  rcases mem_mset_elim hp with h | h
  · subst h
    exact hv
  · exact hm p h

theorem nodupKeys_mset {α : Type} {m : List (String × α)} (hm : NodupKeys m)
    (k : String) (v : α) : NodupKeys (mset m k v) := by
  rcases h : mget m k with _ | w
  · unfold NodupKeys
    rw [mset_keys_of_mget_none v h]
    have hk : k ∉ m.map (fun p => p.1) := (mget_eq_none_iff m k).mp h
    refine List.Nodup.append hm (List.nodup_singleton k) ?_
    intro a ha hb
    rw [List.mem_singleton] at hb
    subst hb
    exact hk ha
  · unfold NodupKeys
    rw [mset_keys_of_mget_some v h]
    exact hm

theorem nodupKeys_mupd {α : Type} {m : List (String × α)} (hm : NodupKeys m)
    (k : String) (f : α → α) : NodupKeys (mupd m k f) := by
  unfold NodupKeys
  rw [mupd_keys]
  exact hm

theorem keyedBy_mupd {α : Type} {f : α → String} {m : List (String × α)}
    (hm : KeyedBy f m) {k : String} {g : α → α} (hg : ∀ v, f (g v) = f v) :
    KeyedBy f (mupd m k g) := by
  intro p hp
  rcases mem_mupd_elim hp with h | h
  · exact hm p h
  · obtain ⟨q, hq, rfl⟩ := h
    simpa [hg] using hm q hq

theorem buildMap_keyedBy_aux {α : Type} (f : α → String) (xs : List α) :
    ∀ acc : List (String × α), KeyedBy f acc →
      KeyedBy f (xs.foldl (fun m x => mset m (f x) x) acc) := by
  induction xs with
  | nil => intro acc h; simpa using h
  | cons x rest ih =>
    intro acc h
    exact ih _ (keyedBy_mset h rfl)

theorem buildMap_keyedBy {α : Type} (f : α → String) (xs : List α) :
    KeyedBy f (buildMap f xs) :=
  buildMap_keyedBy_aux f xs [] (fun p hp => by simp at hp)

theorem buildMap_nodupKeys_aux {α : Type} (f : α → String) (xs : List α) :
    ∀ acc : List (String × α), NodupKeys acc →
      NodupKeys (xs.foldl (fun m x => mset m (f x) x) acc) := by
  induction xs with
  | nil => intro acc h; simpa using h
  | cons x rest ih =>
    intro acc h
    exact ih _ (nodupKeys_mset h _ _)

theorem buildMap_nodupKeys {α : Type} (f : α → String) (xs : List α) :
    NodupKeys (buildMap f xs) :=
  buildMap_nodupKeys_aux f xs [] (by simp [NodupKeys])

theorem buildMap_values_aux {α : Type} (f : α → String) (m : List (String × α)) :
    ∀ acc : List (String × α), KeyedBy f m →
      NodupKeys (acc ++ m) →
      (m.map (fun p => p.2)).foldl (fun a x => mset a (f x) x) acc = acc ++ m := by
  induction m with
  | nil => intro acc _ _; simp
  | cons p rest ih =>
    obtain ⟨k, v⟩ := p
    intro acc hk hn
    have hfv : f v = k := hk (k, v) (by simp)
    have hknotin : k ∉ acc.map (fun q => q.1) := by
      unfold NodupKeys at hn
      simp only [List.map_append, List.nodup_append] at hn
      intro hmem
      exact hn.2.2 hmem (by simp)
    have hgetnone : mget acc k = none := (mget_eq_none_iff acc k).mpr hknotin
    have hstep : mset acc k v = acc ++ [(k, v)] := mset_append_of_mget_none v hgetnone
    simp only [List.map_cons, List.foldl_cons, hfv, hstep]
    have hk' : KeyedBy f rest := fun q hq => hk q (List.mem_cons_of_mem _ hq)
    have hn' : NodupKeys ((acc ++ [(k, v)]) ++ rest) := by
      unfold NodupKeys at hn ⊢
      simpa using hn
    rw [ih (acc ++ [(k, v)]) hk' hn']
    simp

theorem buildMap_values {α : Type} (f : α → String) (m : List (String × α))
    (hk : KeyedBy f m) (hn : NodupKeys m) :
    buildMap f (m.map (fun p => p.2)) = m := by
  unfold buildMap
  have := buildMap_values_aux f m [] hk (by simpa using hn)
  simpa using this

theorem buildMap_values_mem {α : Type} (f : α → String) (xs : List α) {v : α}
    (h : v ∈ (buildMap f xs).map (fun p => p.2)) : v ∈ xs := by
  unfold buildMap at h
  have aux : ∀ (ys : List α) (acc : List (String × α)),
      v ∈ (ys.foldl (fun m x => mset m (f x) x) acc).map (fun p => p.2) →
      v ∈ acc.map (fun p => p.2) ∨ v ∈ ys := by
    intro ys
    induction ys with
    | nil =>
      intro acc h
      simp only [List.foldl_nil] at h
      exact Or.inl h
    | cons x rest ih =>
      intro acc h
      rcases ih _ h with h' | h'
      · -- v is a value of `mset acc (f x) x`
        rw [List.mem_map] at h'
        obtain ⟨p, hp, hpv⟩ := h'
        rcases mem_mset_elim hp with h1 | h1
        · subst h1
          exact Or.inr (by simp [← hpv])
        · exact Or.inl (List.mem_map.mpr ⟨p, h1, hpv⟩)
      · exact Or.inr (List.mem_cons_of_mem _ h')
  have := aux xs [] h
  simpa using this

/-! ## String-prefix facts about the id namespaces -/

theorem uid_ne_cid (x y : String) : "u_" ++ x ≠ "c_" ++ y := by
  intro h
  have hd := congrArg String.data h
  simp only [String.data_append] at hd
  have h1 : ('u' :: '_' :: x.data : List Char) = 'c' :: '_' :: y.data := hd
  have h2 : ('u' : Char) = 'c' := by injection h1
  exact absurd h2 (by decide)

theorem strStartsWith_u_not_c (x : String) :
    strStartsWith ("u_" ++ x) "c_" = false := by
  unfold strStartsWith
  have h1 : ("u_" ++ x).data = 'u' :: '_' :: x.data := by
    simp only [String.data_append]
    rfl
  have h2 : "c_".data = ['c', '_'] := rfl
  rw [h1, h2]
  simp [List.isPrefixOf]

theorem strStartsWith_at_not_U (l : String)
    (h : strStartsWith l "@" = true) : strStartsWith l "U_" = false := by
  unfold strStartsWith at h ⊢
  have h1 : "@".data = ['@'] := rfl
  have h2 : "U_".data = ['U', '_'] := rfl
  rw [h1] at h
  rw [h2]
  cases hd : l.data with
  | nil => rw [hd] at h; simp [List.isPrefixOf] at h
  | cons c cs =>
    rw [hd] at h
    simp only [List.isPrefixOf, List.isPrefixOf_nil_left, Bool.and_true] at h
    have : c = '@' := by
      by_contra hc
      simp [List.isPrefixOf, beq_iff_eq] at h
      exact hc h.symm
    subst this
    simp [List.isPrefixOf]

/-! ## Well-formedness of the node and link maps through the operations -/

/-- Node maps produced by the store are keyed by node id, without duplicate
keys. -/
def WFN (nm : NodeMap) : Prop :=
  KeyedBy (fun n => n.id) nm ∧ NodupKeys nm

/-- Link maps produced by the store are keyed by `` `${source}-${target}` ``,
without duplicate keys. -/
def WFL (lm : LinkMap) : Prop :=
  KeyedBy linkKey lm ∧ NodupKeys lm

theorem WFN_buildNodeMap (nodes : List GraphNode) : WFN (buildNodeMap nodes) :=
  ⟨buildMap_keyedBy _ nodes, buildMap_nodupKeys _ nodes⟩

theorem WFL_buildLinkMap (links : List GraphLink) : WFL (buildLinkMap links) :=
  ⟨buildMap_keyedBy _ links, buildMap_nodupKeys _ links⟩

theorem WFN_values_roundtrip {nm : NodeMap} (h : WFN nm) :
    buildNodeMap (nm.map (fun p => p.2)) = nm :=
  buildMap_values _ nm h.1 h.2

theorem WFL_values_roundtrip {lm : LinkMap} (h : WFL lm) :
    buildLinkMap (lm.map (fun p => p.2)) = lm :=
  buildMap_values _ lm h.1 h.2

theorem updateAccountNode_id (n : GraphNode) (d : UserData) :
    (updateAccountNode n d).id = n.id := rfl

theorem WFN_applyAccount {nm : NodeMap} (h : WFN nm) (d : UserData) :
    WFN (applyAccount nm d) := by
  simp only [applyAccount]
  rcases hg : mget nm ("u_" ++ optIdString d.id) with _ | n
  · exact ⟨keyedBy_mset h.1 rfl, nodupKeys_mset h.2 _ _⟩
  · have hid : n.id = "u_" ++ optIdString d.id := h.1 _ (mem_of_mget hg)
    exact ⟨keyedBy_mset h.1 (by simp [updateAccountNode_id, hid]), nodupKeys_mset h.2 _ _⟩

theorem WF_applyChannelLink {uid : String} {p : NodeMap × LinkMap}
    (hn : WFN p.1) (hl : WFL p.2) (clink : String) :
    WFN (applyChannelLink uid p clink).1 ∧ WFL (applyChannelLink uid p clink).2 := by
  unfold applyChannelLink
  constructor
  · by_cases hc : (mget p.1 ("c_" ++ clink)).isSome <;>
      simp only [hc, if_pos, if_neg, Bool.false_eq_true, ite_true, ite_false]
    · exact hn
    · exact ⟨keyedBy_mset hn.1 rfl, nodupKeys_mset hn.2 _ _⟩
  · by_cases hc : (mget p.2 (uid ++ "-" ++ ("c_" ++ clink))).isSome <;>
      simp only [hc, if_pos, if_neg, Bool.false_eq_true, ite_true, ite_false]
    · exact hl
    · exact ⟨keyedBy_mset hl.1 rfl, nodupKeys_mset hl.2 _ _⟩

theorem WF_applyChannelLinks {uid : String} {nm : NodeMap} {lm : LinkMap}
    (hn : WFN nm) (hl : WFL lm) (hs : List String) :
    WFN (applyChannelLinks uid nm lm hs).1 ∧ WFL (applyChannelLinks uid nm lm hs).2 := by
  unfold applyChannelLinks
  induction hs generalizing nm lm with
  | nil => exact ⟨hn, hl⟩
  | cons c rest ih =>
    simp only [List.foldl_cons]
    have step := @WF_applyChannelLink uid (nm, lm) hn hl c
    have := ih step.1 step.2
    simpa using this

theorem upgradeSenderNode_id (n : GraphNode) (resolved : List (Nat × ResolvedUser))
    (sid : Nat) : (upgradeSenderNode n resolved sid).id = n.id := by
  unfold upgradeSenderNode
  rcases lookupResolved resolved sid with _ | ru
  · rfl
  · by_cases h1 : strStartsWith n.label "U_" <;>
      by_cases h2 : strTruthy ru.username <;>
      by_cases h3 : strTruthy ru.first_name <;>
      simp [h1, h2, h3]

theorem WF_applyGiftEntry {targetId : String} {resolved : List (Nat × ResolvedUser)}
    {p : NodeMap × LinkMap} (hn : WFN p.1) (hl : WFL p.2) (g : GiftEntry) :
    WFN (applyGiftEntry targetId resolved p g).1 ∧
    WFL (applyGiftEntry targetId resolved p g).2 := by
  unfold applyGiftEntry
  by_cases hs : natTruthy g.sender_id
  · simp only [hs, Bool.not_true, Bool.false_eq_true, ite_false]
    constructor
    · rcases hg : mget p.1 ("u_" ++ toString (g.sender_id.getD 0)) with _ | n
      · simp only [hg]
        exact ⟨keyedBy_mset hn.1 rfl, nodupKeys_mset hn.2 _ _⟩
      · simp only [hg]
        have hid : n.id = "u_" ++ toString (g.sender_id.getD 0) := hn.1 _ (mem_of_mget hg)
        exact ⟨keyedBy_mset hn.1 (by simp [upgradeSenderNode_id, hid]), nodupKeys_mset hn.2 _ _⟩
    · rcases hg : mget p.2 ("u_" ++ toString (g.sender_id.getD 0) ++ "-" ++ targetId) with _ | l
      · simp only [hg]
        exact ⟨keyedBy_mset hl.1 rfl, nodupKeys_mset hl.2 _ _⟩
      · simp only [hg]
        have hk : linkKey l = "u_" ++ toString (g.sender_id.getD 0) ++ "-" ++ targetId :=
          hl.1 _ (mem_of_mget hg)
        exact ⟨keyedBy_mset hl.1 (by simp only [linkKey] at hk ⊢; exact hk), nodupKeys_mset hl.2 _ _⟩
  · simp only [hs, Bool.not_false, ite_true]
    exact ⟨hn, hl⟩

theorem WF_applyGifts {user_id : Option Nat} {gifts : List GiftEntry}
    {resolved : List (Nat × ResolvedUser)} {nm : NodeMap} {lm : LinkMap}
    (hn : WFN nm) (hl : WFL lm) :
    WFN (applyGifts user_id gifts resolved nm lm).1 ∧
    WFL (applyGifts user_id gifts resolved nm lm).2 := by
  unfold applyGifts
  induction gifts generalizing nm lm with
  | nil => exact ⟨hn, hl⟩
  | cons g rest ih =>
    simp only [List.foldl_cons]
    have step := @WF_applyGiftEntry ("u_" ++ optIdString user_id) resolved (nm, lm) hn hl g
    have := ih step.1 step.2
    simpa using this

/-! ## Lemmas about the view projection -/

theorem buildPool_fold_untouched (nodes : List GraphNode) (k : String) :
    ∀ acc : Pool, (∀ n ∈ nodes, n.id ≠ k) →
      mget (nodes.foldl (fun pool n => if n.group = "channel" then pool
        else mset pool n.id (initRecord n)) acc) k = mget acc k := by
  induction nodes with
  | nil => intro acc _; rfl
  | cons n rest ih =>
    intro acc hne
    simp only [List.foldl_cons]
    have hrest : ∀ m ∈ rest, m.id ≠ k := fun m hm => hne m (List.mem_cons_of_mem _ hm)
    by_cases hg : n.group = "channel"
    · rw [if_pos hg]
      exact ih acc hrest
    · rw [if_neg hg]
      rw [ih _ hrest]
      exact mget_mset_ne acc _ (hne n (List.mem_cons_self _ _))

theorem buildPool_fold_mget (nodes : List GraphNode) (k : String) :
    ∀ acc : Pool, (nodes.map (fun n => n.id)).Nodup → mget acc k = none →
      mget (nodes.foldl (fun pool n => if n.group = "channel" then pool
        else mset pool n.id (initRecord n)) acc) k =
      (match nodes.find? (fun n => n.id == k) with
       | some n => if n.group = "channel" then none else some (initRecord n)
       | none => none) := by
  induction nodes with
  | nil => intro acc _ hacc; simpa using hacc
  | cons n rest ih =>
    intro acc hnd hacc
    simp only [List.map_cons, List.nodup_cons] at hnd
    simp only [List.foldl_cons]
    by_cases hk : n.id = k
    · have hrest : ∀ m ∈ rest, m.id ≠ k := by
        intro m hm hmk
        exact hnd.1 (by rw [hk, ← hmk]; exact List.mem_map.mpr ⟨m, hm, rfl⟩)
      have hfind : (n :: rest).find? (fun m => m.id == k) = some n := by
        simp [List.find?, hk]
      simp only [hfind]
      by_cases hg : n.group = "channel"
      · rw [if_pos hg, if_pos hg]
        rw [buildPool_fold_untouched rest k acc hrest]
        exact hacc
      · rw [if_neg hg, if_neg hg]
        rw [buildPool_fold_untouched rest k _ hrest]
        rw [hk]
        exact mget_mset_self acc k (initRecord n)
    · have hb : (n.id == k) = false := by simp [hk]
      have hfind : (n :: rest).find? (fun m => m.id == k) = rest.find? (fun m => m.id == k) := by
        simp [List.find?, hb]
      simp only [hfind]
      by_cases hg : n.group = "channel"
      · rw [if_pos hg]
        exact ih acc hnd.2 hacc
      · rw [if_neg hg]
        refine ih _ hnd.2 ?_
        rw [mget_mset_ne acc _ hk]
        exact hacc

theorem find_values_eq_mget {nm : NodeMap} (h : WFN nm) (k : String) :
    (nm.map (fun p => p.2)).find? (fun n => n.id == k) = mget nm k := by
  obtain ⟨hk, hn⟩ := h
  induction nm with
  | nil => rfl
  | cons p rest ih =>
    obtain ⟨k0, n0⟩ := p
    have hid : n0.id = k0 := hk (k0, n0) (by simp)
    have hk' : KeyedBy (fun n => n.id) rest := fun q hq => hk q (List.mem_cons_of_mem _ hq)
    have hn' : NodupKeys rest := by
      unfold NodupKeys at hn ⊢
      simp only [List.map_cons, List.nodup_cons] at hn
      exact hn.2
    by_cases hkk : k0 = k
    · simp [List.find?, mget, hid, hkk]
    · simp only [List.map_cons, List.find?, mget]
      have : (n0.id == k) = false := by
        simp [hid, hkk]
      rw [this]
      simp only [if_neg hkk]
      exact ih hk' hn'

/-- Characterisation of the user pool built from a well-formed node map:
one `initRecord` per non-channel node. -/
theorem buildPool_mget {nm : NodeMap} (h : WFN nm) (k : String) :
    mget (buildPool (nm.map (fun p => p.2))) k =
      (match mget nm k with
       | some n => if n.group = "channel" then none else some (initRecord n)
       | none => none) := by
  have hnd : ((nm.map (fun p => p.2)).map (fun n => n.id)).Nodup := by
    have : (nm.map (fun p => p.2)).map (fun n => n.id) = nm.map (fun p => p.1) := by
      rw [List.map_map]
      apply List.map_congr_left
      intro p hp
      exact h.1 p hp
    rw [this]
    exact h.2
  unfold buildPool
  rw [buildPool_fold_mget _ k [] hnd rfl]
  rw [find_values_eq_mget h k]

theorem buildPool_entry_elim {nodes : List GraphNode} {p : String × ParsedUser}
    (h : p ∈ buildPool nodes) :
    ∃ n ∈ nodes, ¬ n.group = "channel" ∧ p = (n.id, initRecord n) := by
  unfold buildPool at h
  have aux : ∀ (ys : List GraphNode) (acc : Pool), p ∈ ys.foldl (fun pool n =>
      if n.group = "channel" then pool else mset pool n.id (initRecord n)) acc →
      p ∈ acc ∨ ∃ n ∈ ys, ¬ n.group = "channel" ∧ p = (n.id, initRecord n) := by
    intro ys
    induction ys with
    | nil => intro acc h; exact Or.inl h
    | cons n rest ih =>
      intro acc h
      simp only [List.foldl_cons] at h
      by_cases hg : n.group = "channel"
      · rw [if_pos hg] at h
        rcases ih acc h with h' | ⟨m, hm, hmg, hmp⟩
        · exact Or.inl h'
        · exact Or.inr ⟨m, List.mem_cons_of_mem _ hm, hmg, hmp⟩
      · rw [if_neg hg] at h
        rcases ih _ h with h' | ⟨m, hm, hmg, hmp⟩
        · rcases mem_mset_elim h' with h'' | h''
          · exact Or.inr ⟨n, List.mem_cons_self _ _, hg, h''⟩
          · exact Or.inl h''
        · exact Or.inr ⟨m, List.mem_cons_of_mem _ hm, hmg, hmp⟩
  rcases aux nodes [] h with h' | h'
  · simp at h'
  · exact h'

theorem buildPool_keyedBy (nodes : List GraphNode) :
    KeyedBy (fun u => u.id) (buildPool nodes) := by
  intro p hp
  obtain ⟨n, _, _, rfl⟩ := buildPool_entry_elim hp
  rfl

theorem buildPool_nodupKeys (nodes : List GraphNode) : NodupKeys (buildPool nodes) := by
  unfold buildPool
  have aux : ∀ (ys : List GraphNode) (acc : Pool), NodupKeys acc →
      NodupKeys (ys.foldl (fun pool n =>
        if n.group = "channel" then pool else mset pool n.id (initRecord n)) acc) := by
    intro ys
    induction ys with
    | nil => intro acc h; exact h
    | cons n rest ih =>
      intro acc h
      simp only [List.foldl_cons]
      by_cases hg : n.group = "channel"
      · rw [if_pos hg]; exact ih acc h
      · rw [if_neg hg]; exact ih _ (nodupKeys_mset h _ _)
  exact aux nodes [] (by simp [NodupKeys])

theorem buildPool_keys (nodes : List GraphNode)
    (hnd : (nodes.map (fun n => n.id)).Nodup) :
    (buildPool nodes).map (fun p => p.1) =
      (nodes.filter (fun n => !(n.group == "channel"))).map (fun n => n.id) := by
  unfold buildPool
  have aux : ∀ (ys : List GraphNode) (acc : Pool),
      (ys.map (fun n => n.id)).Nodup →
      (∀ n ∈ ys, mget acc n.id = none) →
      (ys.foldl (fun pool n =>
        if n.group = "channel" then pool else mset pool n.id (initRecord n)) acc).map
          (fun p => p.1) =
        acc.map (fun p => p.1) ++ (ys.filter (fun n => !(n.group == "channel"))).map
          (fun n => n.id) := by
    intro ys
    induction ys with
    | nil => intro acc _ _; simp
    | cons n rest ih =>
      intro acc hnd hdisj
      simp only [List.map_cons, List.nodup_cons] at hnd
      simp only [List.foldl_cons]
      by_cases hg : n.group = "channel"
      · rw [if_pos hg]
        have : (n.group == "channel") = true := by simp [hg]
        rw [List.filter_cons, this]
        simp only [Bool.not_true, Bool.false_eq_true, ite_false]
        exact ih acc hnd.2 (fun m hm => hdisj m (List.mem_cons_of_mem _ hm))
      · rw [if_neg hg]
        have hgb : (n.group == "channel") = false := by simp [hg]
        rw [List.filter_cons, hgb]
        simp only [Bool.not_false, ite_true]
        have hne : ∀ m ∈ rest, mget (mset acc n.id (initRecord n)) m.id = none := by
          intro m hm
          have hmn : n.id ≠ m.id := by
            intro hEq
            exact hnd.1 (hEq ▸ List.mem_map.mpr ⟨m, hm, rfl⟩)
          rw [mget_mset_ne acc _ hmn]
          exact hdisj m (List.mem_cons_of_mem _ hm)
        rw [ih _ hnd.2 hne]
        rw [mset_keys_of_mget_none _ (hdisj n (List.mem_cons_self _ _))]
        simp
  have := aux nodes [] hnd (fun n _ => rfl)
  simpa using this

theorem applyLink_keys (nm : NodeMap) (pool : Pool) (l : GraphLink) :
    (applyLink nm pool l).map (fun p => p.1) = pool.map (fun p => p.1) := by
  rcases hs : mget pool l.source with _ | su <;>
    rcases hr : mget pool l.target with _ | ru <;>
    simp only [applyLink, hs, hr, Option.isSome_none, Option.isSome_some, Bool.and_false,
      Bool.and_true]
  · rw [if_neg (by simp)]
  · rw [if_neg (by simp)]
  · by_cases hsw : strStartsWith l.target "c_" = true
    · rw [if_pos hsw]
      rcases hch : mget nm l.target with _ | ch
      · simp only [hch]
      · simp only [hch]
        exact mupd_keys pool _ _
    · rw [if_neg hsw]
  · by_cases hsw : strStartsWith l.target "c_" = true
    · rw [if_pos hsw]
      rcases hch : mget nm l.target with _ | ch
      · simp only [hch]
      · simp only [hch]
        exact mupd_keys pool _ _
    · rw [if_neg hsw]
      rw [mupd_keys, mupd_keys, mupd_keys]

theorem mget_applyLink_evol (nm : NodeMap) (pool : Pool) (l : GraphLink) (k : String)
    {u : ParsedUser} (h : mget pool k = some u) :
    ∃ u', mget (applyLink nm pool l) k = some u' ∧ u'.id = u.id ∧ u'.label = u.label ∧
      u'.discoveredFrom = u.discoveredFrom ∧
      (u'.sourceType = u.sourceType ∨
        (u.sourceType = "discovered" ∧ u'.sourceType = "gifter")) := by
  rcases hs : mget pool l.source with _ | su <;>
    rcases hr : mget pool l.target with _ | ru <;>
    simp only [applyLink, hs, hr, Option.isSome_none, Option.isSome_some, Bool.and_false,
      Bool.and_true]
  · rw [if_neg (by simp)]
    exact ⟨u, h, rfl, rfl, rfl, Or.inl rfl⟩
  · rw [if_neg (by simp)]
    exact ⟨u, h, rfl, rfl, rfl, Or.inl rfl⟩
  · by_cases hsw : strStartsWith l.target "c_" = true
    · rw [if_pos hsw]
      rcases hch : mget nm l.target with _ | ch
      · simp only [hch]
        exact ⟨u, h, rfl, rfl, rfl, Or.inl rfl⟩
      · simp only [hch]
        by_cases hk : l.source = k
        · subst hk
          rw [mget_mupd_self, h]
          exact ⟨_, rfl, rfl, rfl, rfl, Or.inl rfl⟩
        · rw [mget_mupd_ne _ _ hk, h]
          exact ⟨u, rfl, rfl, rfl, rfl, Or.inl rfl⟩
    · rw [if_neg hsw]
      exact ⟨u, h, rfl, rfl, rfl, Or.inl rfl⟩
  · by_cases hsw : strStartsWith l.target "c_" = true
    · rw [if_pos hsw]
      rcases hch : mget nm l.target with _ | ch
      · simp only [hch]
        exact ⟨u, h, rfl, rfl, rfl, Or.inl rfl⟩
      · simp only [hch]
        by_cases hk : l.source = k
        · subst hk
          rw [mget_mupd_self, h]
          exact ⟨_, rfl, rfl, rfl, rfl, Or.inl rfl⟩
        · rw [mget_mupd_ne _ _ hk, h]
          exact ⟨u, rfl, rfl, rfl, rfl, Or.inl rfl⟩
    · rw [if_neg hsw]
      by_cases hkS : l.source = k
      · subst hkS
        rw [mget_mupd_self]
        by_cases hkT : l.target = l.source
        · rw [hkT, mget_mupd_self, mget_mupd_self, h]
          by_cases hst : u.sourceType = "discovered"
          · refine ⟨_, rfl, by simp [hst], by simp [hst], by simp [hst], Or.inr ⟨hst, by simp [hst]⟩⟩
          · refine ⟨_, rfl, by simp [hst], by simp [hst], by simp [hst], Or.inl (by simp [hst])⟩
        · rw [mget_mupd_ne _ _ hkT, mget_mupd_self, h]
          by_cases hst : u.sourceType = "discovered"
          · refine ⟨_, rfl, by simp [hst], by simp [hst], by simp [hst], Or.inr ⟨hst, by simp [hst]⟩⟩
          · refine ⟨_, rfl, by simp [hst], by simp [hst], by simp [hst], Or.inl (by simp [hst])⟩
      · rw [mget_mupd_ne _ _ hkS]
        by_cases hkT : l.target = k
        · subst hkT
          rw [mget_mupd_self, mget_mupd_ne _ _ hkS, h]
          refine ⟨_, rfl, by simp, by simp, by simp, Or.inl (by simp)⟩
        · rw [mget_mupd_ne _ _ hkT, mget_mupd_ne _ _ hkS, h]
          exact ⟨u, rfl, rfl, rfl, rfl, Or.inl rfl⟩

theorem applyLink_promotes (nm : NodeMap) (pool : Pool) (l : GraphLink) {u : ParsedUser}
    (hc : strStartsWith l.target "c_" = false)
    (hs : mget pool l.source = some u)
    (hr : (mget pool l.target).isSome = true)
    (hst : u.sourceType = "discovered" ∨ u.sourceType = "gifter") :
    ∃ u', mget (applyLink nm pool l) l.source = some u' ∧ u'.sourceType = "gifter" := by
  rcases hrv : mget pool l.target with _ | ru
  · rw [hrv] at hr
    simp at hr
  · simp only [applyLink, hs, hrv, Option.isSome_some, Bool.and_true]
    rw [if_neg (by simp [hc])]
    rw [mget_mupd_self]
    by_cases hkT : l.target = l.source
    · rw [hkT, mget_mupd_self, mget_mupd_self, hs]
      rcases hst with hst | hst
      · exact ⟨_, rfl, by simp [hst]⟩
      · refine ⟨_, rfl, ?_⟩
        simp only [hst]
        simp [hst]
    · rw [mget_mupd_ne _ _ hkT, mget_mupd_self, hs]
      rcases hst with hst | hst
      · exact ⟨_, rfl, by simp [hst]⟩
      · refine ⟨_, rfl, ?_⟩
        simp only [hst]
        simp [hst]

theorem foldl_applyLink_keys (nm : NodeMap) (links : List GraphLink) :
    ∀ pool : Pool, (links.foldl (applyLink nm) pool).map (fun p => p.1) =
      pool.map (fun p => p.1) := by
  induction links with
  | nil => intro pool; rfl
  | cons l rest ih =>
    intro pool
    simp only [List.foldl_cons]
    rw [ih, applyLink_keys]

theorem mget_foldl_applyLink_evol (nm : NodeMap) (links : List GraphLink) :
    ∀ (pool : Pool) (k : String) (u : ParsedUser), mget pool k = some u →
    ∃ u', mget (links.foldl (applyLink nm) pool) k = some u' ∧ u'.id = u.id ∧
      u'.label = u.label ∧ u'.discoveredFrom = u.discoveredFrom ∧
      (u'.sourceType = u.sourceType ∨
        (u.sourceType = "discovered" ∧ u'.sourceType = "gifter")) := by
  induction links with
  | nil => intro pool k u h; exact ⟨u, h, rfl, rfl, rfl, Or.inl rfl⟩
  | cons l rest ih =>
    intro pool k u h
    obtain ⟨u1, h1, hid1, hlb1, hdf1, hst1⟩ := mget_applyLink_evol nm pool l k h
    obtain ⟨u2, h2, hid2, hlb2, hdf2, hst2⟩ := ih _ k u1 h1
    refine ⟨u2, by simpa using h2, hid2.trans hid1, hlb2.trans hlb1, hdf2.trans hdf1, ?_⟩
    rcases hst1 with h1' | ⟨hd1, hg1⟩ <;> rcases hst2 with h2' | ⟨hd2, hg2⟩
    · exact Or.inl (h2'.trans h1')
    · exact Or.inr ⟨h1' ▸ hd2, hg2⟩
    · exact Or.inr ⟨hd1, h2'.trans hg1⟩
    · exact Or.inr ⟨hd1, hg2⟩

theorem foldl_applyLink_gifter (nm : NodeMap) (links : List GraphLink) :
    ∀ (pool : Pool) (l : GraphLink) (u : ParsedUser), l ∈ links →
      mget pool l.source = some u →
      (u.sourceType = "discovered" ∨ u.sourceType = "gifter") →
      strStartsWith l.target "c_" = false →
      (mget pool l.target).isSome = true →
      ∃ u', mget (links.foldl (applyLink nm) pool) l.source = some u' ∧
        u'.sourceType = "gifter" := by
  induction links with
  | nil =>
    intro pool l u hmem
    simp at hmem
  | cons l0 rest ih =>
    intro pool l u hmem hs hst hc hr
    rcases List.mem_cons.mp hmem with rfl | hmem'
    · obtain ⟨u1, h1, hg1⟩ := applyLink_promotes nm pool l hc hs hr hst
      obtain ⟨u2, h2, _, _, _, hst2⟩ := mget_foldl_applyLink_evol nm rest _ _ u1 h1
      refine ⟨u2, by simpa using h2, ?_⟩
      rcases hst2 with h' | ⟨_, hg⟩
      · exact h'.trans hg1
      · exact hg
    · obtain ⟨u1, h1, _, _, _, hst1⟩ := mget_applyLink_evol nm pool l0 l.source hs
      have hst1' : u1.sourceType = "discovered" ∨ u1.sourceType = "gifter" := by
        rcases hst1 with h' | ⟨_, hg⟩
        · rw [h']; exact hst
        · exact Or.inr hg
      have hr' : (mget (applyLink nm pool l0) l.target).isSome = true := by
        rw [mget_isSome_iff] at hr ⊢
        rw [applyLink_keys]
        exact hr
      have := ih (applyLink nm pool l0) l u1 hmem' h1 hst1' hc hr'
      simpa using this

theorem keyedBy_values_map {α : Type} {f : α → String} {m : List (String × α)}
    (h : KeyedBy f m) : m.map (fun p => f p.2) = m.map (fun p => p.1) :=
  List.map_congr_left h

theorem applyLink_keyedBy {pool : Pool} (hk : KeyedBy (fun u => u.id) pool)
    (nm : NodeMap) (l : GraphLink) : KeyedBy (fun u => u.id) (applyLink nm pool l) := by
  rcases hs : mget pool l.source with _ | su <;>
    rcases hr : mget pool l.target with _ | ru <;>
    simp only [applyLink, hs, hr, Option.isSome_none, Option.isSome_some, Bool.and_false,
      Bool.and_true]
  · rw [if_neg (by simp)]
    exact hk
  · rw [if_neg (by simp)]
    exact hk
  · by_cases hsw : strStartsWith l.target "c_" = true
    · rw [if_pos hsw]
      rcases hch : mget nm l.target with _ | ch
      · simp only [hch]
        exact hk
      · simp only [hch]
        exact keyedBy_mupd hk (fun v => rfl)
    · rw [if_neg hsw]
      exact hk
  · by_cases hsw : strStartsWith l.target "c_" = true
    · rw [if_pos hsw]
      rcases hch : mget nm l.target with _ | ch
      · simp only [hch]
        exact hk
      · simp only [hch]
        exact keyedBy_mupd hk (fun v => rfl)
    · rw [if_neg hsw]
      refine keyedBy_mupd ?_ ?_
      · refine keyedBy_mupd ?_ ?_
        · exact keyedBy_mupd hk (fun v => rfl)
        · intro v; rfl
      · intro v
        by_cases hv : v.sourceType = "discovered" <;> simp [hv]

theorem foldl_applyLink_keyedBy (nm : NodeMap) (links : List GraphLink) :
    ∀ pool : Pool, KeyedBy (fun u => u.id) pool →
      KeyedBy (fun u => u.id) (links.foldl (applyLink nm) pool) := by
  induction links with
  | nil => intro pool h; exact h
  | cons l rest ih =>
    intro pool h
    simp only [List.foldl_cons]
    exact ih _ (applyLink_keyedBy h nm l)

theorem foldl_applyLink_nodupKeys (nm : NodeMap) (links : List GraphLink)
    (pool : Pool) (h : NodupKeys pool) :
    NodupKeys (links.foldl (applyLink nm) pool) := by
  unfold NodupKeys
  rw [foldl_applyLink_keys]
  exact h

/-! ## Idempotence of the account merge and the channel-link merge -/

theorem strTruthy_some_getD {o : Option String} (h : strTruthy o = true) :
    some (o.getD "") = o := by
  cases o with
  | none => simp [strTruthy] at h
  | some s => rfl

theorem strTruthy_none : strTruthy none = false := rfl

theorem updateAccountNode_create (d : UserData) :
    updateAccountNode (createAccountNode d) d = createAccountNode d := by
  unfold updateAccountNode createAccountNode
  by_cases hu : strTruthy d.username = true <;>
    by_cases ht : strTruthy d.type = true <;>
      by_cases hb : strTruthy d.bio = true <;>
        by_cases hd : strTruthy d.discovered_from = true <;>
          simp [hu, ht, hb, hd, normDiscoveredFrom, strTruthy_none, strTruthy_some_getD]

theorem updateAccountNode_idem (n : GraphNode) (d : UserData) :
    updateAccountNode (updateAccountNode n d) d = updateAccountNode n d := by
  unfold updateAccountNode
  by_cases hu : strTruthy d.username = true <;>
    by_cases ht : strTruthy d.type = true <;>
      by_cases hb : strTruthy d.bio = true <;>
        by_cases hd : strTruthy d.discovered_from = true <;>
          by_cases hbt : n.isTarget = true <;>
            by_cases hn : strTruthy n.discoveredFrom = true <;>
              simp [hu, ht, hb, hd, hbt, hn, normDiscoveredFrom, strTruthy_none]

theorem applyAccount_idem (nm : NodeMap) (d : UserData) :
    applyAccount (applyAccount nm d) d = applyAccount nm d := by
  simp only [applyAccount]
  rcases hg : mget nm ("u_" ++ optIdString d.id) with _ | n <;>
    simp only [hg, mget_mset_self]
  · rw [updateAccountNode_create]
    exact mset_mset_self nm _ _ _
  · rw [updateAccountNode_idem]
    exact mset_mset_self nm _ _ _

theorem applyAccount_noop {nm : NodeMap} {d : UserData} {n : GraphNode}
    (h : mget nm ("u_" ++ optIdString d.id) = some n)
    (hn : updateAccountNode n d = n) : applyAccount nm d = nm := by
  simp only [applyAccount, h, hn]
  exact mset_eq_of_mget h

theorem mget_applyAccount_self (nm : NodeMap) (d : UserData) :
    mget (applyAccount nm d) ("u_" ++ optIdString d.id) =
      some (match mget nm ("u_" ++ optIdString d.id) with
            | some n => updateAccountNode n d
            | none => createAccountNode d) := by
  simp only [applyAccount]
  rcases hg : mget nm ("u_" ++ optIdString d.id) with _ | n <;>
    simp only [hg, mget_mset_self]

theorem mget_mset_isSome {α : Type} {m : List (String × α)} {k : String}
    (k' : String) (v : α) (h : (mget m k).isSome = true) :
    (mget (mset m k' v) k).isSome = true := by
  by_cases hk : k' = k
  · subst hk
    rw [mget_mset_self]
    rfl
  · rw [mget_mset_ne _ _ hk]
    exact h

theorem applyChannelLinks_cons (uid : String) (nm : NodeMap) (lm : LinkMap)
    (c : String) (rest : List String) :
    applyChannelLinks uid nm lm (c :: rest) =
      applyChannelLinks uid (applyChannelLink uid (nm, lm) c).1
        (applyChannelLink uid (nm, lm) c).2 rest := by
  simp [applyChannelLinks]

theorem applyChannelLink_mono_node {uid : String} {p : NodeMap × LinkMap}
    (c : String) {k : String} (h : (mget p.1 k).isSome = true) :
    (mget (applyChannelLink uid p c).1 k).isSome = true := by
  unfold applyChannelLink
  by_cases hc : (mget p.1 ("c_" ++ c)).isSome = true
  · simpa [hc] using h
  · simp only [hc, Bool.false_eq_true, ite_false]
    exact mget_mset_isSome _ _ h

theorem applyChannelLink_mono_link {uid : String} {p : NodeMap × LinkMap}
    (c : String) {k : String} (h : (mget p.2 k).isSome = true) :
    (mget (applyChannelLink uid p c).2 k).isSome = true := by
  unfold applyChannelLink
  by_cases hc : (mget p.2 (uid ++ "-" ++ ("c_" ++ c))).isSome = true
  · simpa [hc] using h
  · simp only [hc, Bool.false_eq_true, ite_false]
    exact mget_mset_isSome _ _ h

theorem applyChannelLinks_mono (uid : String) (hs : List String) :
    ∀ (nm : NodeMap) (lm : LinkMap) (k kl : String),
      ((mget nm k).isSome = true →
        (mget (applyChannelLinks uid nm lm hs).1 k).isSome = true) ∧
      ((mget lm kl).isSome = true →
        (mget (applyChannelLinks uid nm lm hs).2 kl).isSome = true) := by
  induction hs with
  | nil => intro nm lm k kl; exact ⟨fun h => h, fun h => h⟩
  | cons c rest ih =>
    intro nm lm k kl
    rw [applyChannelLinks_cons]
    constructor
    · intro h
      exact (ih _ _ k kl).1 (applyChannelLink_mono_node c h)
    · intro h
      exact (ih _ _ k kl).2 (applyChannelLink_mono_link c h)

theorem applyChannelLinks_has (uid : String) (hs : List String) :
    ∀ (nm : NodeMap) (lm : LinkMap) (c : String), c ∈ hs →
      (mget (applyChannelLinks uid nm lm hs).1 ("c_" ++ c)).isSome = true ∧
      (mget (applyChannelLinks uid nm lm hs).2 (uid ++ "-" ++ ("c_" ++ c))).isSome = true := by
  induction hs with
  | nil =>
    intro nm lm c hc
    simp at hc
  | cons c0 rest ih =>
    intro nm lm c hc
    rw [applyChannelLinks_cons]
    rcases List.mem_cons.mp hc with rfl | hc'
    · have h1 : (mget (applyChannelLink uid (nm, lm) c).1 ("c_" ++ c)).isSome = true := by
        unfold applyChannelLink
        by_cases h : (mget nm ("c_" ++ c)).isSome = true
        · simpa [h] using h
        · simp only [h, Bool.false_eq_true, ite_false]
          rw [mget_mset_self]
          rfl
      have h2 : (mget (applyChannelLink uid (nm, lm) c).2
          (uid ++ "-" ++ ("c_" ++ c))).isSome = true := by
        unfold applyChannelLink
        by_cases h : (mget lm (uid ++ "-" ++ ("c_" ++ c))).isSome = true
        · simpa [h] using h
        · simp only [h, Bool.false_eq_true, ite_false]
          rw [mget_mset_self]
          rfl
      exact ⟨(applyChannelLinks_mono uid rest (applyChannelLink uid (nm, lm) c).1
                (applyChannelLink uid (nm, lm) c).2 ("c_" ++ c)
                (uid ++ "-" ++ ("c_" ++ c))).1 h1,
             (applyChannelLinks_mono uid rest (applyChannelLink uid (nm, lm) c).1
                (applyChannelLink uid (nm, lm) c).2 ("c_" ++ c)
                (uid ++ "-" ++ ("c_" ++ c))).2 h2⟩
    · exact ih _ _ c hc'

theorem applyChannelLink_noop {uid : String} {p : NodeMap × LinkMap} {c : String}
    (h1 : (mget p.1 ("c_" ++ c)).isSome = true)
    (h2 : (mget p.2 (uid ++ "-" ++ ("c_" ++ c))).isSome = true) :
    applyChannelLink uid p c = p := by
  simp [applyChannelLink, h1, h2]

theorem applyChannelLinks_noop (uid : String) (hs : List String) :
    ∀ (p : NodeMap × LinkMap),
      (∀ c ∈ hs, (mget p.1 ("c_" ++ c)).isSome = true ∧
        (mget p.2 (uid ++ "-" ++ ("c_" ++ c))).isSome = true) →
      applyChannelLinks uid p.1 p.2 hs = p := by
  induction hs with
  | nil => intro p _; rfl
  | cons c rest ih =>
    intro p hp
    rw [applyChannelLinks_cons]
    have hc := hp c (List.mem_cons_self _ _)
    rw [applyChannelLink_noop hc.1 hc.2]
    exact ih p (fun c' hc' => hp c' (List.mem_cons_of_mem _ hc'))

theorem applyChannelLinks_mget_u (uid : String) (hs : List String) :
    ∀ (nm : NodeMap) (lm : LinkMap) (x : String),
      mget (applyChannelLinks uid nm lm hs).1 ("u_" ++ x) = mget nm ("u_" ++ x) := by
  induction hs with
  | nil => intro nm lm x; rfl
  | cons c rest ih =>
    intro nm lm x
    rw [applyChannelLinks_cons]
    rw [ih]
    unfold applyChannelLink
    by_cases h : (mget nm ("c_" ++ c)).isSome = true
    · simp [h]
    · simp only [h, Bool.false_eq_true, ite_false]
      exact mget_mset_ne nm _ (fun hEq => uid_ne_cid x c hEq.symm)

/-- Applying the same `user_found` event twice leaves the state of the first
application unchanged. -/
theorem apply_found_idem (s : AppState) (d : UserData) :
    processScanUpdate (processScanUpdate s (.user_found d)) (.user_found d) =
      processScanUpdate s (.user_found d) := by
  have h1 : WFN (applyAccount (buildNodeMap s.graphData.nodes) d) :=
    WFN_applyAccount (WFN_buildNodeMap _) d
  have h2 : WFL (buildLinkMap s.graphData.links) := WFL_buildLinkMap _
  simp only [processScanUpdate, finishUpdate]
  rw [WFN_values_roundtrip h1, WFL_values_roundtrip h2, applyAccount_idem]

/-- Applying the same `user_detail` event twice leaves the state of the first
application unchanged. -/
theorem apply_detail_idem (s : AppState) (d : UserData) :
    processScanUpdate (processScanUpdate s (.user_detail d)) (.user_detail d) =
      processScanUpdate s (.user_detail d) := by
  have h1 : WFN (applyAccount (buildNodeMap s.graphData.nodes) d) :=
    WFN_applyAccount (WFN_buildNodeMap _) d
  have h2 : WFL (buildLinkMap s.graphData.links) := WFL_buildLinkMap _
  rcases hcl : d.channel_links with _ | ls
  · simp only [processScanUpdate, finishUpdate, hcl]
    rw [WFN_values_roundtrip h1, WFL_values_roundtrip h2, applyAccount_idem]
  · simp only [processScanUpdate, finishUpdate, hcl]
    set uid := "u_" ++ optIdString d.id with huid
    set nm1 := applyAccount (buildNodeMap s.graphData.nodes) d with hnm1
    set lm0 := buildLinkMap s.graphData.links with hlm0
    set q := applyChannelLinks uid nm1 lm0 ls with hq
    have hwf : WFN q.1 ∧ WFL q.2 := WF_applyChannelLinks h1 h2 ls
    rw [WFN_values_roundtrip hwf.1, WFL_values_roundtrip hwf.2]
    -- the second account merge is a no-op on the already-merged node
    have hstored : mget q.1 uid =
        some (match mget (buildNodeMap s.graphData.nodes) uid with
              | some n => updateAccountNode n d
              | none => createAccountNode d) := by
      rw [hq, huid]
      rw [applyChannelLinks_mget_u]
      exact mget_applyAccount_self _ d
    have hnoop : applyAccount q.1 d = q.1 := by
      rcases hg : mget (buildNodeMap s.graphData.nodes) uid with _ | n
      · rw [hg] at hstored
        exact applyAccount_noop hstored (updateAccountNode_create d)
      · rw [hg] at hstored
        exact applyAccount_noop hstored (updateAccountNode_idem n d)
    rw [hnoop]
    have hchan : applyChannelLinks uid q.1 q.2 ls = q := by
      refine applyChannelLinks_noop uid ls q ?_
      intro c hc
      exact applyChannelLinks_has uid ls nm1 lm0 c hc
    rw [hchan]

/-! ## Small unfolding helpers -/

theorem processScanUpdate_found (s : AppState) (d : UserData) :
    processScanUpdate s (.user_found d) =
      finishUpdate s (applyAccount (buildNodeMap s.graphData.nodes) d)
        (buildLinkMap s.graphData.links) := rfl

theorem processScanUpdate_gifts (s : AppState) (user_id : Option Nat)
    (gifts : List GiftEntry) (resolved : List (Nat × ResolvedUser)) :
    processScanUpdate s (.user_gifts user_id gifts resolved) =
      finishUpdate s
        (applyGifts user_id gifts resolved (buildNodeMap s.graphData.nodes)
          (buildLinkMap s.graphData.links)).1
        (applyGifts user_id gifts resolved (buildNodeMap s.graphData.nodes)
          (buildLinkMap s.graphData.links)).2 := rfl

theorem finishUpdate_parsedUsers (s : AppState) (nm : NodeMap) (lm : LinkMap) :
    (finishUpdate s nm lm).parsedUsers = project nm lm := rfl

theorem finishUpdate_nodes (s : AppState) (nm : NodeMap) (lm : LinkMap) :
    (finishUpdate s nm lm).graphData.nodes = nm.map (fun p => p.2) := rfl

theorem record_mem_project {nm : NodeMap} {lm : LinkMap} {k : String} {u : ParsedUser}
    (h : mget (runProjection nm lm) k = some u) : u ∈ project nm lm :=
  List.mem_map.mpr ⟨(k, u), mem_of_mget h, rfl⟩

/-! ## Concrete events used by the scenario claims -/

/-- Account 1 first observed as discovered via T1. -/
def eventFirstObserved : Update := .user_found { id := some 1, discovered_from := some "T1" }

/-- Later account-observed event for account 1 with `discovered_from` absent. -/
def eventReobservedNoVia : Update := .user_found { id := some 1 }

/-- The node stored for account 1 after `eventFirstObserved`. -/
def c2Node : GraphNode :=
  { id := "u_1", label := "U_1", group := "member", val := (9 : Rat) / 2,
    title := some "", color := none, isTarget := false, discoveredFrom := some "T1" }

/-! ## Claim theorems -/

/-- C8: for every account-observed event (`user_found` or `user_detail`) and
every graph state, applying the event twice in succession yields exactly the
same store state — in particular the same graph and the same projected view —
as applying it once. -/
theorem c8_account_observed_idempotent :
    ∀ (s : AppState) (d : UserData),
      processScanUpdate (processScanUpdate s (.user_found d)) (.user_found d) =
        processScanUpdate s (.user_found d) ∧
      processScanUpdate (processScanUpdate s (.user_detail d)) (.user_detail d) =
        processScanUpdate s (.user_detail d) :=
  fun s d => ⟨apply_found_idem s d, apply_detail_idem s d⟩

/-- C2 (counterexample): account 1 is first observed with `found_via_id = "T1"`
and projected as *discovered*; a later `account-observed` for it with the
found-via id absent flips the projected role to *target*, contradicting the
claim that the role is never regressed (the discovered-via field itself is
retained). -/
theorem c2_provenance_counterexample :
    (findUser (processScanUpdate initialState eventFirstObserved) "u_1").map
        (fun u => u.sourceType) = some "discovered" ∧
    (findUser (processScanUpdate (processScanUpdate initialState eventFirstObserved)
        eventReobservedNoVia) "u_1").map (fun u => u.sourceType) = some "target" ∧
    (findUser (processScanUpdate (processScanUpdate initialState eventFirstObserved)
        eventReobservedNoVia) "u_1").map (fun u => u.discoveredFrom) =
      some (some "T1") := by
  decide

/-- C2 (amended): a later `account-observed` event with the found-via id absent
never clears the discovered-via field of an existing account node, but it does
reclassify the account as a target: the node's `isTarget` flag is set and the
projected record (when the node is not channel-typed) shows role `target` with
the original provenance still attached. -/
theorem c2_provenance_amended (s : AppState) (d : UserData) (n : GraphNode)
    (hdf : strTruthy d.discovered_from = false)
    (hn : mget (buildNodeMap s.graphData.nodes) ("u_" ++ optIdString d.id) = some n) :
    ∃ n', mget (buildNodeMap (processScanUpdate s (.user_found d)).graphData.nodes)
        ("u_" ++ optIdString d.id) = some n' ∧
      n'.discoveredFrom = n.discoveredFrom ∧ n'.isTarget = true ∧
      (¬ n'.group = "channel" →
        ∃ u ∈ (processScanUpdate s (.user_found d)).parsedUsers,
          u.id = "u_" ++ optIdString d.id ∧ u.sourceType = "target" ∧
          u.discoveredFrom = n.discoveredFrom) := by
  have hwf0 : WFN (buildNodeMap s.graphData.nodes) := WFN_buildNodeMap _
  have hwf1 : WFN (applyAccount (buildNodeMap s.graphData.nodes) d) :=
    WFN_applyAccount hwf0 d
  have hnid : n.id = "u_" ++ optIdString d.id := hwf0.1 _ (mem_of_mget hn)
  have hroundtrip :
      buildNodeMap ((processScanUpdate s (.user_found d)).graphData.nodes) =
        applyAccount (buildNodeMap s.graphData.nodes) d := by
    rw [processScanUpdate_found, finishUpdate_nodes]
    exact WFN_values_roundtrip hwf1
  have hstored : mget (applyAccount (buildNodeMap s.graphData.nodes) d)
      ("u_" ++ optIdString d.id) = some (updateAccountNode n d) := by
    rw [mget_applyAccount_self, hn]
  have hdfEq : (updateAccountNode n d).discoveredFrom = n.discoveredFrom := by
    simp [updateAccountNode, normDiscoveredFrom, hdf, strTruthy_none]
  have hit : (updateAccountNode n d).isTarget = true := by
    by_cases hb : n.isTarget = true <;> simp [updateAccountNode, hdf, hb]
  have hidEq : (updateAccountNode n d).id = "u_" ++ optIdString d.id := by
    rw [updateAccountNode_id, hnid]
  refine ⟨updateAccountNode n d, by rw [hroundtrip]; exact hstored, hdfEq, hit, ?_⟩
  intro hch
  have hpool : mget (buildPool ((applyAccount (buildNodeMap s.graphData.nodes) d).map
      (fun p => p.2))) ("u_" ++ optIdString d.id) =
      some (initRecord (updateAccountNode n d)) := by
    rw [buildPool_mget hwf1, hstored]
    simp [hch]
  obtain ⟨u, hu, huid2, _, hudf, hust⟩ := mget_foldl_applyLink_evol
    (applyAccount (buildNodeMap s.graphData.nodes) d)
    ((buildLinkMap s.graphData.links).map (fun p => p.2)) _ _ _ hpool
  have hst0 : (initRecord (updateAccountNode n d)).sourceType = "target" := by
    simp [initRecord, hit]
  have hstu : u.sourceType = "target" := by
    rcases hust with h' | ⟨hd2, _⟩
    · rw [h', hst0]
    · rw [hst0] at hd2
      simp at hd2
  refine ⟨u, ?_, ?_, hstu, ?_⟩
  · rw [processScanUpdate_found, finishUpdate_parsedUsers]
    exact record_mem_project hu
  · rw [huid2]
    simp [initRecord, hidEq]
  · rw [hudf]
    simp [initRecord, hdfEq]

/-- C2 witness: the amended theorem applied to the concrete two-event scenario. -/
theorem c2_provenance_amended_witness :
    ∃ n', mget (buildNodeMap (processScanUpdate (processScanUpdate initialState
        eventFirstObserved) (.user_found { id := some 1 })).graphData.nodes)
        ("u_" ++ optIdString (some 1)) = some n' ∧
      n'.discoveredFrom = c2Node.discoveredFrom ∧ n'.isTarget = true ∧
      (¬ n'.group = "channel" →
        ∃ u ∈ (processScanUpdate (processScanUpdate initialState eventFirstObserved)
            (.user_found { id := some 1 })).parsedUsers,
          u.id = "u_" ++ optIdString (some 1) ∧ u.sourceType = "target" ∧
          u.discoveredFrom = c2Node.discoveredFrom) :=
  c2_provenance_amended (processScanUpdate initialState eventFirstObserved)
    { id := some 1 } c2Node (by decide) (by rfl)

/-- C1 (counterexample): with one node discovered under the first target and a
second target queued, the stream-complete transition leaves an empty graph —
the store is reset, not retained. -/
def c1Node : GraphNode :=
  { id := "u_1", label := "U_1", group := "member", val := 3 }

def c1State : AppState :=
  { initialState with
      isScanning := true,
      scanQueue := ["target2"],
      graphData := { nodes := [c1Node], links := [] } }

/-- C1 (counterexample): the concrete queued transition discards the nodes
discovered under the first target. -/
theorem c1_queue_counterexample :
    c1State.isScanning = true ∧ c1State.scanQueue = ["target2"] ∧
    c1State.graphData.nodes.length = 1 ∧
    (onStreamClose c1State).graphData.nodes.length = 0 := by
  refine ⟨rfl, rfl, rfl, ?_⟩
  rfl

/-- C1 (amended): whenever the queue is non-empty (next target a non-empty
string) and scanning is active, the stream-close transition pops the queue and
starts the next target through `startScanForId`, which invokes `startScan` and
therefore resets the graph store and the projected view to empty; discoveries
under the first target are discarded rather than retained. -/
theorem c1_queue_reset (s : AppState) (t : String) (rest : List String)
    (hscan : s.isScanning = true) (hq : s.scanQueue = t :: rest) (ht : ¬ t = "") :
    (onStreamClose s).graphData = { nodes := [], links := [] } ∧
    (onStreamClose s).parsedUsers = [] ∧
    (onStreamClose s).scanQueue = rest ∧
    (onStreamClose s).isScanning = true := by
  unfold onStreamClose
  simp only [hscan, hq, Bool.not_true, Bool.false_eq_true, ite_false]
  rw [if_neg ht]
  unfold startScanForId
  rw [if_neg ht]
  simp [startScan, addLog, setScanQueue]

/-- C1 witness: the amended theorem applied to the concrete queued state. -/
theorem c1_queue_reset_witness :
    (onStreamClose c1State).graphData = { nodes := [], links := [] } ∧
    (onStreamClose c1State).parsedUsers = [] ∧
    (onStreamClose c1State).scanQueue = [] ∧
    (onStreamClose c1State).isScanning = true :=
  c1_queue_reset c1State "target2" [] rfl rfl (by decide)

/-- C4 (counterexample): an `account-observed` event with no id is not
rejected: it creates a synthetic node keyed `u_undefined` (the JavaScript
string interpolation of `undefined`), so the store state after the call
differs from the state before it, and no error is reported. -/
theorem c4_malformed_counterexample :
    (processScanUpdate initialState (.user_found { id := none })).graphData.nodes.map
      (fun nd => nd.id) = ["u_undefined"] ∧
    initialState.graphData.nodes.map (fun nd => nd.id) = [] := by
  exact ⟨rfl, rfl⟩

/-- C4 (amended): a malformed `account-observed` event (missing id) is not
rejected and does mutate the store: in any state where the synthetic key
`u_undefined` is still absent, applying the event appends exactly one new node
under that key (and leaves the links untouched); `processScanUpdate` has no
error channel, so no data error is reported to the caller. -/
theorem c4_malformed_amended (s : AppState)
    (h : mget (buildNodeMap s.graphData.nodes) "u_undefined" = none) :
    (processScanUpdate s (.user_found { id := none })).graphData.nodes =
      (buildNodeMap s.graphData.nodes).map (fun p => p.2) ++
        [createAccountNode { id := none }] ∧
    (processScanUpdate s (.user_found { id := none })).graphData.links =
      (buildLinkMap s.graphData.links).map (fun p => p.2) := by
  have hkey : ("u_" ++ optIdString (none : Option Nat)) = "u_undefined" := rfl
  constructor
  · rw [processScanUpdate_found, finishUpdate_nodes]
    show (applyAccount (buildNodeMap s.graphData.nodes)
        { id := none }).map (fun p => p.2) = _
    simp only [applyAccount, hkey, h]
    rw [mset_append_of_mget_none _ h]
    simp
  · rfl

/-- C4 witness: the amended theorem applied to the empty initial state. -/
theorem c4_malformed_amended_witness :
    (processScanUpdate initialState (.user_found { id := none })).graphData.nodes =
      (buildNodeMap initialState.graphData.nodes).map (fun p => p.2) ++
        [createAccountNode { id := none }] ∧
    (processScanUpdate initialState (.user_found { id := none })).graphData.links =
      (buildLinkMap initialState.graphData.links).map (fun p => p.2) :=
  c4_malformed_amended initialState (by rfl)

/-- The gift event of the accumulation scenario: recipient 1, sender 2. -/
def giftEvent : Update := .user_gifts (some 1) [{ sender_id := some 2 }] []

/-- C5 (counterexample): from the empty state, applying the gift event three
times does build the edge `u_2 → u_1` with weight 3, but no recipient node is
ever created, so the projected view has no record for `u_1` at all and the
sender's `totalGiftsSent` stays 0 (the tally is skipped when the receiver
record is missing). -/
theorem c5_gift_counterexample :
    ((applyN giftEvent 3 initialState).graphData.links.map
      (fun l => (l.source, l.target, l.value))) = [("u_2", "u_1", some 3)] ∧
    findUser (applyN giftEvent 3 initialState) "u_1" = none ∧
    (findUser (applyN giftEvent 3 initialState) "u_2").map
      (fun u => u.totalGiftsSent) = some 0 := by
  decide

/-- C5 (amended): when the recipient's account node already exists (here:
recipient 1 was account-observed first), three applications of
`gift-observed(recipient=1, sender=2)` produce exactly one gift edge
`u_2 → u_1` of weight 3, `total_sent` of the sender and `total_received` of
the recipient both equal 3, and the sender classifies as gifter; from the
truly empty state the edge still reaches weight 3 but no totals are tallied
because gift events never create the recipient node. -/
theorem c5_gift_amended :
    ((applyN giftEvent 3 (processScanUpdate initialState
        (.user_found { id := some 1 }))).graphData.links.map
      (fun l => (l.source, l.target, l.value))) = [("u_2", "u_1", some 3)] ∧
    (findUser (applyN giftEvent 3 (processScanUpdate initialState
        (.user_found { id := some 1 }))) "u_2").map
      (fun u => (u.totalGiftsSent, u.sourceType)) = some (3, "gifter") ∧
    (findUser (applyN giftEvent 3 (processScanUpdate initialState
        (.user_found { id := some 1 }))) "u_1").map
      (fun u => u.totalGiftsReceived) = some 3 := by
  decide

/-- Re-observation of account 1 carrying only a first name. -/
def eventFirstNameOnly : Update := .user_found { id := some 1, first_name := some "Alice" }

/-- C6 (counterexample): account 1 exists with the placeholder label `U_1`;
an `account-observed` event carrying a first name but no username leaves the
label at the placeholder instead of upgrading it to the first name — the
account-event merge updates the label only when a username is present. -/
theorem c6_label_counterexample :
    ((processScanUpdate (processScanUpdate initialState (.user_found { id := some 1 }))
        eventFirstNameOnly).graphData.nodes.map (fun nd => nd.label)) = ["U_1"] ∧
    ¬ ((processScanUpdate (processScanUpdate initialState (.user_found { id := some 1 }))
        eventFirstNameOnly).graphData.nodes.map (fun nd => nd.label)) = ["Alice"] := by
  decide

theorem strStartsWith_at_append (x : String) : strStartsWith ("@" ++ x) "@" = true := by
  unfold strStartsWith
  have h1 : ("@" ++ x).data = '@' :: x.data := by
    simp only [String.data_append]
    rfl
  have h2 : "@".data = ['@'] := rfl
  rw [h1, h2]
  simp [List.isPrefixOf]

theorem upgradeSenderNode_noop {n : GraphNode} (resolved : List (Nat × ResolvedUser))
    (sid : Nat) (h : strStartsWith n.label "U_" = false) :
    upgradeSenderNode n resolved sid = n := by
  unfold upgradeSenderNode
  rcases lookupResolved resolved sid with _ | ru
  · rfl
  · simp [h]

theorem applyGiftEntry_mget_stable (targetId : String)
    (resolved : List (Nat × ResolvedUser)) (p : NodeMap × LinkMap) (g : GiftEntry)
    {k : String} {n : GraphNode} (h : mget p.1 k = some n)
    (hl : strStartsWith n.label "U_" = false) :
    mget (applyGiftEntry targetId resolved p g).1 k = some n := by
  unfold applyGiftEntry
  by_cases hs : natTruthy g.sender_id = true
  · simp only [hs, Bool.not_true, Bool.false_eq_true, ite_false]
    by_cases hk : ("u_" ++ toString (g.sender_id.getD 0)) = k
    · subst hk
      simp only [h]
      rw [upgradeSenderNode_noop resolved _ hl]
      exact mget_mset_self _ _ _
    · rcases hg : mget p.1 ("u_" ++ toString (g.sender_id.getD 0)) with _ | m <;>
        simp only [hg]
      · exact (mget_mset_ne _ _ hk).trans h
      · exact (mget_mset_ne _ _ hk).trans h
  · simp only [hs, Bool.not_false, ite_true]
    exact h

theorem applyGifts_mget_stable (targetId : String)
    (resolved : List (Nat × ResolvedUser)) (gifts : List GiftEntry) :
    ∀ (p : NodeMap × LinkMap) (k : String) (n : GraphNode),
      mget p.1 k = some n → strStartsWith n.label "U_" = false →
      mget (gifts.foldl (applyGiftEntry targetId resolved) p).1 k = some n := by
  induction gifts with
  | nil => intro p k n h _; exact h
  | cons g rest ih =>
    intro p k n h hl
    simp only [List.foldl_cons]
    exact ih _ k n (applyGiftEntry_mget_stable targetId resolved p g h hl) hl

/-- C6 (amended): for an existing account node, an `account-observed` event
replaces the label with `@username` exactly when a username is present — even
over an existing username-derived label — and otherwise leaves the label
untouched, so a first name alone never upgrades a placeholder; a label that
already starts with `@` keeps starting with `@`; and a node whose label is not
a `U_` placeholder is left entirely unchanged by gift events (placeholder
upgrades happen only through the gift path's resolved senders). -/
theorem c6_label_amended :
    (∀ (s : AppState) (d : UserData) (n : GraphNode),
      mget (buildNodeMap s.graphData.nodes) ("u_" ++ optIdString d.id) = some n →
      ∃ n', mget (buildNodeMap (processScanUpdate s (.user_found d)).graphData.nodes)
          ("u_" ++ optIdString d.id) = some n' ∧
        n'.label = (if strTruthy d.username then "@" ++ d.username.getD "" else n.label) ∧
        (strStartsWith n.label "@" = true → strStartsWith n'.label "@" = true)) ∧
    (∀ (s : AppState) (user_id : Option Nat) (gifts : List GiftEntry)
        (resolved : List (Nat × ResolvedUser)) (k : String) (n : GraphNode),
      mget (buildNodeMap s.graphData.nodes) k = some n →
      strStartsWith n.label "U_" = false →
      mget (buildNodeMap (processScanUpdate s
          (.user_gifts user_id gifts resolved)).graphData.nodes) k = some n) := by
  constructor
  · intro s d n hn
    have hwf1 : WFN (applyAccount (buildNodeMap s.graphData.nodes) d) :=
      WFN_applyAccount (WFN_buildNodeMap _) d
    have hroundtrip :
        buildNodeMap ((processScanUpdate s (.user_found d)).graphData.nodes) =
          applyAccount (buildNodeMap s.graphData.nodes) d := by
      rw [processScanUpdate_found, finishUpdate_nodes]
      exact WFN_values_roundtrip hwf1
    have hstored : mget (applyAccount (buildNodeMap s.graphData.nodes) d)
        ("u_" ++ optIdString d.id) = some (updateAccountNode n d) := by
      rw [mget_applyAccount_self, hn]
    refine ⟨updateAccountNode n d, by rw [hroundtrip]; exact hstored, ?_, ?_⟩
    · by_cases hu : strTruthy d.username = true <;>
        simp [updateAccountNode, accountLabel, hu]
    · intro hat
      by_cases hu : strTruthy d.username = true
      · simp only [updateAccountNode, accountLabel, hu, if_true, ite_true]
        exact strStartsWith_at_append _
      · simpa [updateAccountNode, accountLabel, hu] using hat
  · intro s user_id gifts resolved k n hn hl
    have hwf := @WF_applyGifts user_id gifts resolved (buildNodeMap s.graphData.nodes)
      (buildLinkMap s.graphData.links) (WFN_buildNodeMap s.graphData.nodes)
      (WFL_buildLinkMap s.graphData.links)
    have hroundtrip :
        buildNodeMap ((processScanUpdate s (.user_gifts user_id gifts resolved)).graphData.nodes) =
          (applyGifts user_id gifts resolved (buildNodeMap s.graphData.nodes)
            (buildLinkMap s.graphData.links)).1 := by
      rw [processScanUpdate_gifts, finishUpdate_nodes]
      exact WFN_values_roundtrip hwf.1
    rw [hroundtrip]
    exact applyGifts_mget_stable _ resolved gifts _ k n hn hl

/-- The node stored for account 1 before the first-name-only re-observation. -/
def c6BaseNode : GraphNode :=
  { id := "u_1", label := "U_1", group := "member", val := (9 : Rat) / 2,
    title := some "", color := none, isTarget := true, discoveredFrom := none }

/-- C6 witness: the account part of the amended theorem applied to the
first-name-only re-observation of account 1. -/
theorem c6_label_amended_witness :
    ∃ n', mget (buildNodeMap (processScanUpdate (processScanUpdate initialState
        (.user_found { id := some 1 }))
        (.user_found { id := some 1, first_name := some "Alice" })).graphData.nodes)
        ("u_" ++ optIdString ({ id := some 1, first_name := some "Alice" } : UserData).id) =
        some n' ∧
      n'.label = (if strTruthy ({ id := some 1, first_name := some "Alice" } : UserData).username
        then "@" ++ ({ id := some 1, first_name := some "Alice" } : UserData).username.getD ""
        else c6BaseNode.label) ∧
      (strStartsWith c6BaseNode.label "@" = true → strStartsWith n'.label "@" = true) :=
  c6_label_amended.1 (processScanUpdate initialState (.user_found { id := some 1 }))
    { id := some 1, first_name := some "Alice" } c6BaseNode (by rfl)

/-! ## Gift-created sender nodes -/

/-- The node stored under `key` is a gift-created sender: not a target, no
provenance, grouped `potential_gifter`, keyed by its own id. -/
def goodAt (nm : NodeMap) (key : String) : Prop :=
  ∃ n, mget nm key = some n ∧ n.isTarget = false ∧ n.discoveredFrom = none ∧
    n.group = "potential_gifter" ∧ n.id = key

theorem upgradeSenderNode_fields (n : GraphNode) (resolved : List (Nat × ResolvedUser))
    (sid : Nat) :
    (upgradeSenderNode n resolved sid).isTarget = n.isTarget ∧
    (upgradeSenderNode n resolved sid).discoveredFrom = n.discoveredFrom ∧
    (upgradeSenderNode n resolved sid).group = n.group ∧
    (upgradeSenderNode n resolved sid).id = n.id := by
  unfold upgradeSenderNode
  rcases lookupResolved resolved sid with _ | ru
  · exact ⟨rfl, rfl, rfl, rfl⟩
  · by_cases h1 : strStartsWith n.label "U_" = true <;>
      by_cases h2 : strTruthy ru.username = true <;>
        by_cases h3 : strTruthy ru.first_name = true <;>
          simp [h1, h2, h3]

theorem applyGiftEntry_mget_evol (targetId : String)
    (resolved : List (Nat × ResolvedUser)) (p : NodeMap × LinkMap) (g : GiftEntry)
    {k : String} {n : GraphNode} (h : mget p.1 k = some n) :
    ∃ n', mget (applyGiftEntry targetId resolved p g).1 k = some n' ∧
      n'.isTarget = n.isTarget ∧ n'.discoveredFrom = n.discoveredFrom ∧
      n'.group = n.group ∧ n'.id = n.id := by
  unfold applyGiftEntry
  by_cases hs : natTruthy g.sender_id = true
  · simp only [hs, Bool.not_true, Bool.false_eq_true, ite_false]
    by_cases hk : ("u_" ++ toString (g.sender_id.getD 0)) = k
    · subst hk
      simp only [h]
      obtain ⟨f1, f2, f3, f4⟩ := upgradeSenderNode_fields n resolved (g.sender_id.getD 0)
      exact ⟨_, mget_mset_self _ _ _, f1, f2, f3, f4⟩
    · rcases hg : mget p.1 ("u_" ++ toString (g.sender_id.getD 0)) with _ | m <;>
        simp only [hg]
      · exact ⟨n, (mget_mset_ne _ _ hk).trans h, rfl, rfl, rfl, rfl⟩
      · exact ⟨n, (mget_mset_ne _ _ hk).trans h, rfl, rfl, rfl, rfl⟩
  · simp only [hs, Bool.not_false, ite_true]
    exact ⟨n, h, rfl, rfl, rfl, rfl⟩

theorem applyGifts_fold_evol (targetId : String)
    (resolved : List (Nat × ResolvedUser)) (gifts : List GiftEntry) :
    ∀ (p : NodeMap × LinkMap) (k : String) (n : GraphNode), mget p.1 k = some n →
      ∃ n', mget (gifts.foldl (applyGiftEntry targetId resolved) p).1 k = some n' ∧
        n'.isTarget = n.isTarget ∧ n'.discoveredFrom = n.discoveredFrom ∧
        n'.group = n.group ∧ n'.id = n.id := by
  induction gifts with
  | nil => intro p k n h; exact ⟨n, h, rfl, rfl, rfl, rfl⟩
  | cons g rest ih =>
    intro p k n h
    simp only [List.foldl_cons]
    obtain ⟨n1, h1, e1, e2, e3, e4⟩ := applyGiftEntry_mget_evol targetId resolved p g h
    obtain ⟨n2, h2, f1, f2, f3, f4⟩ := ih _ k n1 h1
    exact ⟨n2, h2, f1.trans e1, f2.trans e2, f3.trans e3, f4.trans e4⟩

theorem applyGiftEntry_P (targetId : String) (resolved : List (Nat × ResolvedUser))
    (p : NodeMap × LinkMap) (g : GiftEntry) (key : String)
    (hP : mget p.1 key = none ∨ goodAt p.1 key) :
    mget (applyGiftEntry targetId resolved p g).1 key = none ∨
      goodAt (applyGiftEntry targetId resolved p g).1 key := by
  rcases hP with habs | ⟨n, hn, h1, h2, h3, h4⟩
  · unfold applyGiftEntry
    by_cases hs : natTruthy g.sender_id = true
    · simp only [hs, Bool.not_true, Bool.false_eq_true, ite_false]
      by_cases hk : ("u_" ++ toString (g.sender_id.getD 0)) = key
      · subst hk
        simp only [habs]
        exact Or.inr ⟨_, mget_mset_self _ _ _, rfl, rfl, rfl, rfl⟩
      · rcases hg : mget p.1 ("u_" ++ toString (g.sender_id.getD 0)) with _ | m <;>
          simp only [hg]
        · exact Or.inl ((mget_mset_ne _ _ hk).trans habs)
        · exact Or.inl ((mget_mset_ne _ _ hk).trans habs)
    · simp only [hs, Bool.not_false, ite_true]
      exact Or.inl habs
  · obtain ⟨n', hn', e1, e2, e3, e4⟩ := applyGiftEntry_mget_evol targetId resolved p g hn
    exact Or.inr ⟨n', hn', e1.trans h1, e2.trans h2, e3.trans h3, e4.trans h4⟩

theorem applyGifts_member_good (targetId : String)
    (resolved : List (Nat × ResolvedUser)) (gifts : List GiftEntry) :
    ∀ (p : NodeMap × LinkMap) (sid : Nat), ¬ sid = 0 →
      GiftEntry.mk (some sid) ∈ gifts →
      (mget p.1 ("u_" ++ toString sid) = none ∨ goodAt p.1 ("u_" ++ toString sid)) →
      goodAt (gifts.foldl (applyGiftEntry targetId resolved) p).1
        ("u_" ++ toString sid) := by
  induction gifts with
  | nil =>
    intro p sid _ hmem
    simp at hmem
  | cons g rest ih =>
    intro p sid hsid hmem hP
    simp only [List.foldl_cons]
    rcases List.mem_cons.mp hmem with rfl | hmem'
    · have hstep : goodAt (applyGiftEntry targetId resolved p (GiftEntry.mk (some sid))).1
          ("u_" ++ toString sid) := by
        rcases hP with habs | ⟨n, hn, h1, h2, h3, h4⟩
        · unfold applyGiftEntry
          have hs : natTruthy (GiftEntry.mk (some sid)).sender_id = true := by
            simp [natTruthy, hsid]
          simp only [hs, Bool.not_true, Bool.false_eq_true, ite_false]
          simp only [Option.getD_some]
          simp only [habs]
          exact ⟨_, mget_mset_self _ _ _, rfl, rfl, rfl, rfl⟩
        · obtain ⟨n', hn', e1, e2, e3, e4⟩ :=
            applyGiftEntry_mget_evol targetId resolved p (GiftEntry.mk (some sid)) hn
          exact ⟨n', hn', e1.trans h1, e2.trans h2, e3.trans h3, e4.trans h4⟩
      obtain ⟨n, hn, h1, h2, h3, h4⟩ := hstep
      obtain ⟨n', hn', e1, e2, e3, e4⟩ := applyGifts_fold_evol targetId resolved rest _ _ n hn
      exact ⟨n', hn', e1.trans h1, e2.trans h2, e3.trans h3, e4.trans h4⟩
    · exact ih _ sid hsid hmem' (applyGiftEntry_P targetId resolved p g _ hP)

/-- Gift event whose recipient (account 99) has never been observed. -/
def giftEventNoRecipient : Update := .user_gifts (some 99) [{ sender_id := some 2 }] []

/-- C10 (counterexample): a sender first created by a gift event whose
recipient node does not exist is projected with role `discovered`, not
`gifter` — the gifter promotion is skipped because the receiver record is
missing from the pool (its discovered-via field is absent as claimed). -/
theorem c10_gift_sender_counterexample :
    (findUser (processScanUpdate initialState giftEventNoRecipient) "u_2").map
      (fun u => (u.sourceType, u.discoveredFrom)) = some ("discovered", none) := by
  decide

/-- C10 (amended): an account node first created as the sender of a
gift-observed event and never referenced by any account-observed event has no
provenance recorded and is never projected as `target`; its role is
`discovered` or `gifter` (`gifter` exactly when some projected recipient of
one of its gift edges exists, as the counterexample and the C3 scenario show). -/
theorem c10_gift_sender_amended (s : AppState) (user_id : Option Nat)
    (gifts : List GiftEntry) (resolved : List (Nat × ResolvedUser)) (sid : Nat)
    (hsid : ¬ sid = 0)
    (hmem : GiftEntry.mk (some sid) ∈ gifts)
    (habs : mget (buildNodeMap s.graphData.nodes) ("u_" ++ toString sid) = none) :
    ∃ u ∈ (processScanUpdate s (.user_gifts user_id gifts resolved)).parsedUsers,
      u.id = "u_" ++ toString sid ∧ u.discoveredFrom = none ∧
      ¬ u.sourceType = "target" ∧
      (u.sourceType = "discovered" ∨ u.sourceType = "gifter") := by
  have hgood := applyGifts_member_good ("u_" ++ optIdString user_id) resolved gifts
    (buildNodeMap s.graphData.nodes, buildLinkMap s.graphData.links) sid hsid hmem
    (Or.inl habs)
  obtain ⟨n, hn, hit, hdf, hgr, hid⟩ := hgood
  have hwf := @WF_applyGifts user_id gifts resolved (buildNodeMap s.graphData.nodes)
    (buildLinkMap s.graphData.links) (WFN_buildNodeMap s.graphData.nodes)
    (WFL_buildLinkMap s.graphData.links)
  have hn' : mget (applyGifts user_id gifts resolved (buildNodeMap s.graphData.nodes)
      (buildLinkMap s.graphData.links)).1 ("u_" ++ toString sid) = some n := hn
  have hch : ¬ n.group = "channel" := by
    rw [hgr]
    decide
  have hpool : mget (buildPool ((applyGifts user_id gifts resolved
      (buildNodeMap s.graphData.nodes) (buildLinkMap s.graphData.links)).1.map
      (fun p => p.2))) ("u_" ++ toString sid) = some (initRecord n) := by
    rw [buildPool_mget hwf.1, hn']
    simp [hch]
  obtain ⟨u, hu, huid, _, hudf, hust⟩ := mget_foldl_applyLink_evol
    (applyGifts user_id gifts resolved (buildNodeMap s.graphData.nodes)
      (buildLinkMap s.graphData.links)).1
    ((applyGifts user_id gifts resolved (buildNodeMap s.graphData.nodes)
      (buildLinkMap s.graphData.links)).2.map (fun p => p.2)) _ _ _ hpool
  have hst0 : (initRecord n).sourceType = "discovered" := by
    simp [initRecord, hit]
  have hstu : u.sourceType = "discovered" ∨ u.sourceType = "gifter" := by
    rcases hust with h' | ⟨_, hg⟩
    · rw [h', hst0]
      exact Or.inl rfl
    · exact Or.inr hg
  refine ⟨u, ?_, ?_, ?_, ?_, hstu⟩
  · rw [processScanUpdate_gifts, finishUpdate_parsedUsers]
    exact record_mem_project hu
  · rw [huid]
    simp [initRecord, hid]
  · rw [hudf]
    simp [initRecord, hdf]
  · rcases hstu with h' | h' <;> rw [h'] <;> decide

/-- C10 witness: the amended theorem applied to the missing-recipient gift
scenario. -/
theorem c10_gift_sender_amended_witness :
    ∃ u ∈ (processScanUpdate initialState
        (.user_gifts (some 99) [{ sender_id := some 2 }] [])).parsedUsers,
      u.id = "u_" ++ toString 2 ∧ u.discoveredFrom = none ∧
      ¬ u.sourceType = "target" ∧
      (u.sourceType = "discovered" ∨ u.sourceType = "gifter") :=
  c10_gift_sender_amended initialState (some 99) [{ sender_id := some 2 }] [] 2
    (by decide) (by decide) (by rfl)

/-- C3 (counterexample): account 2 is created purely as a gift sender — no
discovery-provenance is ever recorded for it — yet the projected role is
`gifter`, not `target`, refuting the precedence rule that an account with no
provenance classifies as target. -/
theorem c3_role_counterexample :
    (findUser (processScanUpdate (processScanUpdate initialState
        (.user_found { id := some 1 })) giftEvent) "u_2").map
      (fun u => (u.sourceType, u.discoveredFrom)) = some ("gifter", none) := by
  decide

/-- C3 (amended): the projected role is computed from the `isTarget` flag and
the link structure, not from provenance.  A node whose `isTarget` flag is set
always projects as `target`; a node with the flag unset that has an outgoing
non-channel link whose recipient node exists (and is not a channel) projects
as `gifter`, never `discovered`; provenance plays no part, so accounts without
provenance can be `discovered` or `gifter`. -/
theorem c3_role_amended :
    (∀ (nm : NodeMap) (lm : LinkMap) (k : String) (n : GraphNode),
      WFN nm → mget nm k = some n → ¬ n.group = "channel" → n.isTarget = true →
      ∃ u, mget (runProjection nm lm) k = some u ∧ u.sourceType = "target") ∧
    (∀ (nm : NodeMap) (lm : LinkMap) (k : String) (n : GraphNode) (l : GraphLink),
      WFN nm → mget nm k = some n → ¬ n.group = "channel" → n.isTarget = false →
      l ∈ lm.map (fun p => p.2) → l.source = k →
      strStartsWith l.target "c_" = false →
      (∃ m, mget nm l.target = some m ∧ ¬ m.group = "channel") →
      ∃ u, mget (runProjection nm lm) k = some u ∧ u.sourceType = "gifter") := by
  constructor
  · intro nm lm k n hwf hn hch hit
    have hpool : mget (buildPool (nm.map (fun p => p.2))) k = some (initRecord n) := by
      rw [buildPool_mget hwf, hn]
      simp [hch]
    obtain ⟨u, hu, _, _, _, hust⟩ := mget_foldl_applyLink_evol nm
      (lm.map (fun p => p.2)) _ _ _ hpool
    have hst0 : (initRecord n).sourceType = "target" := by
      simp [initRecord, hit]
    refine ⟨u, hu, ?_⟩
    rcases hust with h' | ⟨hd, _⟩
    · rw [h', hst0]
    · rw [hst0] at hd
      simp at hd
  · intro nm lm k n l hwf hn hch hit hlmem hlsrc hlc ⟨m, hm, hmch⟩
    have hpool : mget (buildPool (nm.map (fun p => p.2))) k = some (initRecord n) := by
      rw [buildPool_mget hwf, hn]
      simp [hch]
    have hrec : (mget (buildPool (nm.map (fun p => p.2))) l.target).isSome = true := by
      rw [buildPool_mget hwf, hm]
      simp [hmch]
    have hst0 : (initRecord n).sourceType = "discovered" := by
      simp [initRecord, hit]
    have hsrcpool : mget (buildPool (nm.map (fun p => p.2))) l.source =
        some (initRecord n) := by
      rw [hlsrc]
      exact hpool
    obtain ⟨u, hu, hug⟩ := foldl_applyLink_gifter nm (lm.map (fun p => p.2)) _ l
      (initRecord n) hlmem hsrcpool (Or.inl hst0) hlc hrec
    rw [hlsrc] at hu
    exact ⟨u, hu, hug⟩

/-- The gift-sender node of the C3 scenario. -/
def c3SenderNode : GraphNode :=
  { id := "u_2", label := "U_2", group := "potential_gifter", val := 3 }

/-- The target node of the C3 scenario. -/
def c3TargetNode : GraphNode :=
  { id := "u_1", label := "U_1", group := "member", val := (9 : Rat) / 2,
    title := some "", color := none, isTarget := true, discoveredFrom := none }

/-- The gift link of the C3 scenario. -/
def c3Link : GraphLink :=
  { source := "u_2", target := "u_1", value := some 1, label := some "1 GIFT" }

/-- C3 witness: the gifter part of the amended theorem applied to the
target-plus-gift scenario. -/
theorem c3_role_amended_witness :
    ∃ u, mget (runProjection
        (buildNodeMap (processScanUpdate (processScanUpdate initialState
          (.user_found { id := some 1 })) giftEvent).graphData.nodes)
        (buildLinkMap (processScanUpdate (processScanUpdate initialState
          (.user_found { id := some 1 })) giftEvent).graphData.links)) "u_2" =
      some u ∧ u.sourceType = "gifter" :=
  c3_role_amended.2
    (buildNodeMap (processScanUpdate (processScanUpdate initialState
      (.user_found { id := some 1 })) giftEvent).graphData.nodes)
    (buildLinkMap (processScanUpdate (processScanUpdate initialState
      (.user_found { id := some 1 })) giftEvent).graphData.links)
    "u_2" c3SenderNode c3Link
    (WFN_buildNodeMap _)
    (by rfl) (by decide) (by decide) (by decide) (by decide) (by decide)
    ⟨c3TargetNode, by rfl, by decide⟩

/-! ## Counting nodes and edges in well-formed maps -/

theorem values_filter_key_length {α : Type} (f : α → String) (m : List (String × α))
    (hk : KeyedBy f m) (hn : NodupKeys m) (k : String) :
    ((m.map (fun p => p.2)).filter (fun v => f v == k)).length =
      if (mget m k).isSome then 1 else 0 := by
  induction m with
  | nil => rfl
  | cons p rest ih =>
    obtain ⟨k0, v0⟩ := p
    have hfv : f v0 = k0 := hk (k0, v0) (List.mem_cons_self _ _)
    have hk' : KeyedBy f rest := fun q hq => hk q (List.mem_cons_of_mem _ hq)
    have hn' : NodupKeys rest := by
      unfold NodupKeys at hn ⊢
      simp only [List.map_cons, List.nodup_cons] at hn
      exact hn.2
    by_cases hkk : k0 = k
    · subst hkk
      have hb : (f v0 == k0) = true := by simp [hfv]
      have hnone : mget rest k0 = none := by
        rw [mget_eq_none_iff]
        unfold NodupKeys at hn
        simp only [List.map_cons, List.nodup_cons] at hn
        exact hn.1
      have hrest := ih hk' hn'
      rw [hnone] at hrest
      simp only [Option.isSome_none, Bool.false_eq_true, ite_false] at hrest
      simp only [List.map_cons, List.filter_cons, hb, List.length_cons, hrest, mget,
        if_pos rfl, Option.isSome_some, ite_true]
    · have hb : (f v0 == k) = false := by
        simp [hfv, hkk]
      simp only [List.map_cons, List.filter_cons, hb, Bool.false_eq_true, ite_false, mget,
        if_neg hkk]
      exact ih hk' hn'

theorem values_filter_fields_length (lm : LinkMap) (hw : WFL lm) (uid cid : String)
    (hentry : ∃ l, mget lm (uid ++ "-" ++ cid) = some l ∧
      l.source = uid ∧ l.target = cid) :
    ((lm.map (fun p => p.2)).filter
      (fun l => l.source == uid && l.target == cid)).length = 1 := by
  induction lm with
  | nil =>
    obtain ⟨l, hl, _⟩ := hentry
    simp [mget] at hl
  | cons p rest ih =>
    obtain ⟨k0, l0⟩ := p
    have hfv : linkKey l0 = k0 := hw.1 (k0, l0) (List.mem_cons_self _ _)
    have hk' : KeyedBy linkKey rest := fun q hq => hw.1 q (List.mem_cons_of_mem _ hq)
    have hn' : NodupKeys rest := by
      have hn := hw.2
      unfold NodupKeys at hn ⊢
      simp only [List.map_cons, List.nodup_cons] at hn
      exact hn.2
    by_cases hpred : (l0.source == uid && l0.target == cid) = true
    · have hsrc : l0.source = uid := by
        simp only [Bool.and_eq_true, beq_iff_eq] at hpred
        exact hpred.1
      have htgt : l0.target = cid := by
        simp only [Bool.and_eq_true, beq_iff_eq] at hpred
        exact hpred.2
      have hkey : k0 = uid ++ "-" ++ cid := by
        rw [← hfv]
        unfold linkKey
        rw [hsrc, htgt]
      have hnokey : (uid ++ "-" ++ cid) ∉ rest.map (fun q => q.1) := by
        have hn := hw.2
        unfold NodupKeys at hn
        simp only [List.map_cons, List.nodup_cons] at hn
        rw [← hkey]
        exact hn.1
      have hrest : (rest.map (fun q => q.2)).filter
          (fun l => l.source == uid && l.target == cid) = [] := by
        rw [List.filter_eq_nil_iff]
        intro l hl hpl
        rw [List.mem_map] at hl
        obtain ⟨q, hq, rfl⟩ := hl
        simp only [Bool.and_eq_true, beq_iff_eq] at hpl
        have : linkKey q.2 = uid ++ "-" ++ cid := by
          unfold linkKey
          rw [hpl.1, hpl.2]
        have hqk : q.1 = uid ++ "-" ++ cid := by
          rw [← hk' q hq, this]
        exact hnokey (hqk ▸ List.mem_map.mpr ⟨q, hq, rfl⟩)
      simp [List.filter_cons, hpred, hrest]
    · have hne : ¬ k0 = uid ++ "-" ++ cid := by
        intro hEq
        obtain ⟨l, hl, hls, hlt⟩ := hentry
        rw [← hEq] at hl
        simp only [mget, if_pos rfl] at hl
        obtain rfl : l0 = l := Option.some.inj hl
        apply hpred
        simp [hls, hlt]
      have hentry' : ∃ l, mget rest (uid ++ "-" ++ cid) = some l ∧
          l.source = uid ∧ l.target = cid := by
        obtain ⟨l, hl, hls, hlt⟩ := hentry
        simp only [mget, if_neg hne] at hl
        exact ⟨l, hl, hls, hlt⟩
      simp only [List.map_cons, List.filter_cons, hpred, Bool.false_eq_true, ite_false]
      exact ih ⟨hk', hn'⟩ hentry'

theorem applyN_collapse (e : Update) (s : AppState)
    (hi : processScanUpdate (processScanUpdate s e) e = processScanUpdate s e) :
    ∀ n : Nat, 1 ≤ n → applyN e n s = processScanUpdate s e := by
  intro n
  induction n with
  | zero =>
    intro hn
    exact absurd hn (by decide)
  | succ m ih =>
    intro _
    rcases Nat.eq_zero_or_pos m with rfl | hm
    · rfl
    · show processScanUpdate (applyN e m s) e = processScanUpdate s e
      rw [ih hm, hi]

theorem applyChannelLink_snd (uid : String) (p : NodeMap × LinkMap) (c : String) :
    (applyChannelLink uid p c).2 =
      (if (mget p.2 (uid ++ "-" ++ ("c_" ++ c))).isSome = true then p.2
       else mset p.2 (uid ++ "-" ++ ("c_" ++ c))
         { source := uid, target := "c_" ++ c, value := some 1, label := none }) := rfl

/-- C7: applying the `user_detail` event that links account `i` to channel
handle `h` any number `n ≥ 1` of times yields exactly one node for the channel
and exactly one membership edge for the (account, channel) pair, and one more
application is a no-op on the whole store state.  The hypothesis `hcoll` rules
out a pre-existing link whose composite `source-target` key collides with the
pair's key without having these endpoints (true of every store-produced
state). -/
theorem c7_membership_idempotent (s : AppState) (i : Nat) (h : String) (n : Nat)
    (hn : 1 ≤ n)
    (hcoll : ∀ l ∈ s.graphData.links,
      linkKey l = ("u_" ++ optIdString (some i)) ++ "-" ++ ("c_" ++ h) →
      l.source = "u_" ++ optIdString (some i) ∧ l.target = "c_" ++ h) :
    ((applyN (.user_detail { id := some i, channel_links := some [h] })
        n s).graphData.nodes.filter (fun nd => nd.id == "c_" ++ h)).length = 1 ∧
    ((applyN (.user_detail { id := some i, channel_links := some [h] })
        n s).graphData.links.filter (fun l =>
          l.source == "u_" ++ optIdString (some i) &&
          l.target == "c_" ++ h)).length = 1 ∧
    processScanUpdate
        (applyN (.user_detail { id := some i, channel_links := some [h] }) n s)
        (.user_detail { id := some i, channel_links := some [h] }) =
      applyN (.user_detail { id := some i, channel_links := some [h] }) n s := by
  have hcol : applyN (.user_detail { id := some i, channel_links := some [h] }) n s =
      processScanUpdate s (.user_detail { id := some i, channel_links := some [h] }) :=
    applyN_collapse _ s (apply_detail_idem s _) n hn
  have hwfn1 : WFN (applyAccount (buildNodeMap s.graphData.nodes)
      { id := some i, channel_links := some [h] }) :=
    WFN_applyAccount (WFN_buildNodeMap _) _
  have hwfl0 : WFL (buildLinkMap s.graphData.links) := WFL_buildLinkMap _
  have hwfq := @WF_applyChannelLinks ("u_" ++ optIdString (some i)) _ _ hwfn1 hwfl0 [h]
  have hstep : processScanUpdate s (.user_detail { id := some i, channel_links := some [h] }) =
      finishUpdate s
        (applyChannelLinks ("u_" ++ optIdString (some i))
          (applyAccount (buildNodeMap s.graphData.nodes)
            { id := some i, channel_links := some [h] })
          (buildLinkMap s.graphData.links) [h]).1
        (applyChannelLinks ("u_" ++ optIdString (some i))
          (applyAccount (buildNodeMap s.graphData.nodes)
            { id := some i, channel_links := some [h] })
          (buildLinkMap s.graphData.links) [h]).2 := rfl
  have hhas := applyChannelLinks_has ("u_" ++ optIdString (some i)) [h]
    (applyAccount (buildNodeMap s.graphData.nodes)
      { id := some i, channel_links := some [h] })
    (buildLinkMap s.graphData.links) h (by simp)
  refine ⟨?_, ?_, ?_⟩
  · rw [hcol, hstep, finishUpdate_nodes]
    rw [values_filter_key_length _ _ hwfq.1.1 hwfq.1.2]
    rw [if_pos hhas.1]
  · rw [hcol, hstep]
    show (((applyChannelLinks ("u_" ++ optIdString (some i))
        (applyAccount (buildNodeMap s.graphData.nodes)
          { id := some i, channel_links := some [h] })
        (buildLinkMap s.graphData.links) [h]).2.map (fun p => p.2)).filter
      (fun l => l.source == "u_" ++ optIdString (some i) &&
        l.target == "c_" ++ h)).length = 1
    refine values_filter_fields_length _ hwfq.2 _ _ ?_
    have hone : applyChannelLinks ("u_" ++ optIdString (some i))
        (applyAccount (buildNodeMap s.graphData.nodes)
          { id := some i, channel_links := some [h] })
        (buildLinkMap s.graphData.links) [h] =
        applyChannelLink ("u_" ++ optIdString (some i))
          (applyAccount (buildNodeMap s.graphData.nodes)
            { id := some i, channel_links := some [h] },
           buildLinkMap s.graphData.links) h := by
      simp [applyChannelLinks]
    rw [hone, applyChannelLink_snd]
    rcases hg : mget (buildLinkMap s.graphData.links)
        ("u_" ++ optIdString (some i) ++ "-" ++ ("c_" ++ h)) with _ | l0
    · simp only [hg, Option.isSome_none, Bool.false_eq_true, ite_false]
      exact ⟨_, mget_mset_self _ _ _, rfl, rfl⟩
    · simp only [hg, Option.isSome_some, ite_true]
      have hlmem : l0 ∈ s.graphData.links :=
        buildMap_values_mem linkKey s.graphData.links
          (List.mem_map.mpr ⟨_, mem_of_mget hg, rfl⟩)
      have hlkey : linkKey l0 = "u_" ++ optIdString (some i) ++ "-" ++ ("c_" ++ h) :=
        hwfl0.1 _ (mem_of_mget hg)
      obtain ⟨hsrc, htgt⟩ := hcoll l0 hlmem hlkey
      exact ⟨l0, rfl, hsrc, htgt⟩
  · rw [hcol]
    exact apply_detail_idem s _

/-- C7 witness: the channel-linking event applied twice to the empty state. -/
theorem c7_membership_idempotent_witness :
    ((applyN (.user_detail { id := some 1, channel_links := some ["newschannel"] })
        2 initialState).graphData.nodes.filter
        (fun nd => nd.id == "c_" ++ "newschannel")).length = 1 ∧
    ((applyN (.user_detail { id := some 1, channel_links := some ["newschannel"] })
        2 initialState).graphData.links.filter (fun l =>
          l.source == "u_" ++ optIdString (some 1) &&
          l.target == "c_" ++ "newschannel")).length = 1 ∧
    processScanUpdate
        (applyN (.user_detail { id := some 1, channel_links := some ["newschannel"] })
          2 initialState)
        (.user_detail { id := some 1, channel_links := some ["newschannel"] }) =
      applyN (.user_detail { id := some 1, channel_links := some ["newschannel"] })
        2 initialState :=
  c7_membership_idempotent initialState 1 "newschannel" 2 (by decide)
    (by intro l hl; simp [initialState] at hl)

theorem WFN_values_id_nodup {nm : NodeMap} (h : WFN nm) :
    ((nm.map (fun p => p.2)).map (fun nd => nd.id)).Nodup := by
  have heq : (nm.map (fun p => p.2)).map (fun nd => nd.id) = nm.map (fun p => p.1) := by
    rw [List.map_map]
    exact List.map_congr_left (fun p hp => h.1 p hp)
  rw [heq]
  exact h.2

theorem runProjection_keyedBy (nm : NodeMap) (lm : LinkMap) :
    KeyedBy (fun u => u.id) (runProjection nm lm) := by
  unfold runProjection
  exact foldl_applyLink_keyedBy _ _ _ (buildPool_keyedBy _)

theorem runProjection_keys (nm : NodeMap) (lm : LinkMap) :
    (runProjection nm lm).map (fun p => p.1) =
      (buildPool (nm.map (fun p => p.2))).map (fun p => p.1) := by
  unfold runProjection
  exact foldl_applyLink_keys _ _ _

/-- C9: the view projection is a pure function of the graph snapshot.  The
output record ids are exactly the non-channel node ids of the snapshot, in
snapshot order; every emitted record corresponds to a non-channel node (channel
nodes are never emitted as top-level records); and after every non-log update
the stored `parsedUsers` equal `projectGraph` of the stored `graphData`, so
re-running the projection on the same snapshot reproduces the output
identically. -/
theorem c9_projection_deterministic :
    (∀ g : GraphData, (projectGraph g).map (fun r => r.id) =
      (((buildNodeMap g.nodes).map (fun p => p.2)).filter
        (fun nd => !(nd.group == "channel"))).map (fun nd => nd.id)) ∧
    (∀ (g : GraphData) (r : ParsedUser), r ∈ projectGraph g →
      ∃ nd ∈ g.nodes, nd.id = r.id ∧ ¬ nd.group = "channel") ∧
    (∀ (s : AppState) (d : UserData),
      (processScanUpdate s (.user_found d)).parsedUsers =
        projectGraph (processScanUpdate s (.user_found d)).graphData) ∧
    (∀ (s : AppState) (d : UserData),
      (processScanUpdate s (.user_detail d)).parsedUsers =
        projectGraph (processScanUpdate s (.user_detail d)).graphData) ∧
    (∀ (s : AppState) (user_id : Option Nat) (gifts : List GiftEntry)
      (resolved : List (Nat × ResolvedUser)),
      (processScanUpdate s (.user_gifts user_id gifts resolved)).parsedUsers =
        projectGraph (processScanUpdate s (.user_gifts user_id gifts resolved)).graphData) := by
  refine ⟨?_, ?_, ?_, ?_, ?_⟩
  · intro g
    unfold projectGraph project
    rw [List.map_map]
    have h1 := keyedBy_values_map (runProjection_keyedBy (buildNodeMap g.nodes)
      (buildLinkMap g.links))
    have h2 : (runProjection (buildNodeMap g.nodes) (buildLinkMap g.links)).map
        (fun p => (fun r => r.id) p.2) =
        (runProjection (buildNodeMap g.nodes) (buildLinkMap g.links)).map
        (fun p => p.1) := h1
    rw [show ((fun r => r.id) ∘ fun p => p.2 :
        (String × ParsedUser) → String) = fun p => p.2.id from rfl]
    rw [h2, runProjection_keys]
    exact buildPool_keys _ (WFN_values_id_nodup (WFN_buildNodeMap g.nodes))
  · intro g r hr
    unfold projectGraph project at hr
    rw [List.mem_map] at hr
    obtain ⟨pr, hpr, rfl⟩ := hr
    have hid : pr.2.id = pr.1 :=
      runProjection_keyedBy (buildNodeMap g.nodes) (buildLinkMap g.links) pr hpr
    have hkey : pr.1 ∈ (runProjection (buildNodeMap g.nodes)
        (buildLinkMap g.links)).map (fun p => p.1) :=
      List.mem_map.mpr ⟨pr, hpr, rfl⟩
    rw [runProjection_keys] at hkey
    have hsome := (mget_isSome_iff _ pr.1).mpr hkey
    rcases hval : mget (buildPool ((buildNodeMap g.nodes).map (fun p => p.2))) pr.1
      with _ | u0
    · rw [hval] at hsome
      simp at hsome
    · obtain ⟨nd, hndmem, hndch, hpair⟩ := buildPool_entry_elim (mem_of_mget hval)
      have hndid : nd.id = pr.1 := congrArg Prod.fst hpair.symm
      exact ⟨nd, buildMap_values_mem _ _ hndmem, by rw [hndid, ← hid], hndch⟩
  · intro s d
    rw [processScanUpdate_found]
    show project (applyAccount (buildNodeMap s.graphData.nodes) d)
        (buildLinkMap s.graphData.links) =
      project (buildNodeMap ((applyAccount (buildNodeMap s.graphData.nodes) d).map
          (fun p => p.2)))
        (buildLinkMap ((buildLinkMap s.graphData.links).map (fun p => p.2)))
    rw [WFN_values_roundtrip (WFN_applyAccount (WFN_buildNodeMap _) d),
        WFL_values_roundtrip (WFL_buildLinkMap _)]
  · intro s d
    rcases hcl : d.channel_links with _ | ls
    · have hstep : processScanUpdate s (.user_detail d) =
          finishUpdate s (applyAccount (buildNodeMap s.graphData.nodes) d)
            (buildLinkMap s.graphData.links) := by
        simp only [processScanUpdate, hcl]
      rw [hstep]
      show project (applyAccount (buildNodeMap s.graphData.nodes) d)
          (buildLinkMap s.graphData.links) =
        project (buildNodeMap ((applyAccount (buildNodeMap s.graphData.nodes) d).map
            (fun p => p.2)))
          (buildLinkMap ((buildLinkMap s.graphData.links).map (fun p => p.2)))
      rw [WFN_values_roundtrip (WFN_applyAccount (WFN_buildNodeMap _) d),
          WFL_values_roundtrip (WFL_buildLinkMap _)]
    · have hwf := @WF_applyChannelLinks ("u_" ++ optIdString d.id) _ _
        (WFN_applyAccount (WFN_buildNodeMap s.graphData.nodes) d)
        (WFL_buildLinkMap s.graphData.links) ls
      have hstep : processScanUpdate s (.user_detail d) =
          finishUpdate s
            (applyChannelLinks ("u_" ++ optIdString d.id)
              (applyAccount (buildNodeMap s.graphData.nodes) d)
              (buildLinkMap s.graphData.links) ls).1
            (applyChannelLinks ("u_" ++ optIdString d.id)
              (applyAccount (buildNodeMap s.graphData.nodes) d)
              (buildLinkMap s.graphData.links) ls).2 := by
        simp only [processScanUpdate, hcl]
      rw [hstep]
      show project
          (applyChannelLinks ("u_" ++ optIdString d.id)
            (applyAccount (buildNodeMap s.graphData.nodes) d)
            (buildLinkMap s.graphData.links) ls).1
          (applyChannelLinks ("u_" ++ optIdString d.id)
            (applyAccount (buildNodeMap s.graphData.nodes) d)
            (buildLinkMap s.graphData.links) ls).2 =
        project
          (buildNodeMap ((applyChannelLinks ("u_" ++ optIdString d.id)
            (applyAccount (buildNodeMap s.graphData.nodes) d)
            (buildLinkMap s.graphData.links) ls).1.map (fun p => p.2)))
          (buildLinkMap ((applyChannelLinks ("u_" ++ optIdString d.id)
            (applyAccount (buildNodeMap s.graphData.nodes) d)
            (buildLinkMap s.graphData.links) ls).2.map (fun p => p.2)))
      rw [WFN_values_roundtrip hwf.1, WFL_values_roundtrip hwf.2]
  · intro s user_id gifts resolved
    have hwf := @WF_applyGifts user_id gifts resolved (buildNodeMap s.graphData.nodes)
      (buildLinkMap s.graphData.links) (WFN_buildNodeMap s.graphData.nodes)
      (WFL_buildLinkMap s.graphData.links)
    rw [processScanUpdate_gifts]
    show project
        (applyGifts user_id gifts resolved (buildNodeMap s.graphData.nodes)
          (buildLinkMap s.graphData.links)).1
        (applyGifts user_id gifts resolved (buildNodeMap s.graphData.nodes)
          (buildLinkMap s.graphData.links)).2 =
      project
        (buildNodeMap ((applyGifts user_id gifts resolved
          (buildNodeMap s.graphData.nodes) (buildLinkMap s.graphData.links)).1.map
          (fun p => p.2)))
        (buildLinkMap ((applyGifts user_id gifts resolved
          (buildNodeMap s.graphData.nodes) (buildLinkMap s.graphData.links)).2.map
          (fun p => p.2)))
    rw [WFN_values_roundtrip hwf.1, WFL_values_roundtrip hwf.2]

/-- A plain account node used to instantiate the projection claims. -/
def c9Node : GraphNode := { id := "u_7", label := "@w", group := "member", val := 3 }

/-- A one-node snapshot used to instantiate the projection claims. -/
def c9Graph : GraphData := { nodes := [c9Node], links := [] }

/-- C9 witness: the channel-exclusion part applied to a concrete snapshot and
record. -/
theorem c9_projection_deterministic_witness :
    ∃ nd ∈ c9Graph.nodes, nd.id = (initRecord c9Node).id ∧ ¬ nd.group = "channel" :=
  c9_projection_deterministic.2.1 c9Graph (initRecord c9Node) (by decide)

end Telephasma
